import Mathlib

/-!
Verification of the LobbyTrace Square reconciliation engine.

Shallow embedding of:
- src/src/app/core/services/inventory.service.ts (stock ledger)
- src/src/app/core/services/square-integration.service.ts (mapping store,
  sale consumption engine, suggestion cascade)
- src/src/app/core/services/square-webhook.service.ts (webhook logging)
- src/functions/src/index.ts (cloud-function webhook intake and consumption)

Stocks and quantities are modelled as rationals (the stores hold JS numbers;
the code only adds, subtracts, multiplies, compares and clamps them, and at
the magnitudes used in the theorems JS doubles agree with exact rationals).
Wall-clock timestamps (createdAt, updatedAt, lastRestocked) are not
modelled, except lastSyncedAt which is set from an abstract clock value
passed in explicitly. Firestore collections are modelled as lists of
documents; updateDoc by document id is modelled as a map over the list
rewriting the documents bearing that id (ids are unique per collection).
JS strings are modelled by String; helper functions jsMax, jsAbs,
jsToLower, jsTrim, jsSplitWs, jsIncludes mirror Math.max, Math.abs,
String.prototype.toLowerCase (ASCII), trim, split on a whitespace regex,
and String.prototype.includes, implemented by structural recursion so that
concrete runs reduce.
-/

namespace LobbyTrace

/-! ### JS primitive helpers -/

/-- Math.max on two numbers (no NaN in the model). -/
def jsMax (a b : ℚ) : ℚ := if a ≤ b then b else a

/-- Math.abs. -/
def jsAbs (a : ℚ) : ℚ := if a < 0 then -a else a

/-- JS value-or-default for a boolean-or-undefined field: the expression
field || dflt, where none models undefined. -/
def jsOrBool (v : Option Bool) (dflt : Bool) : Bool :=
  match v with
  | some true => true
  | some false => dflt
  | none => dflt

/-- JS truthiness of a boolean-or-undefined field (undefined and false are
falsy). -/
def jsTruthy (v : Option Bool) : Bool := v.getD false

/-- Decimal digits of a natural number, most significant first; fuel-based
so the kernel can reduce it. -/
def natDigitsAux : Nat → Nat → List Char → List Char
  | 0, _, acc => acc
  | _ + 1, n, acc =>
    let d := Char.ofNat (n % 10 + 48)
    if n < 10 then d :: acc else natDigitsAux (n / 10) (n / 10) (d :: acc)

/-- JS template interpolation of a natural number (decimal numeral). -/
def jsNatToString (n : Nat) : String := ⟨natDigitsAux (n + 1) n []⟩

/-- String.prototype.toLowerCase restricted to ASCII. -/
def jsToLower (s : String) : String := ⟨s.data.map Char.toLower⟩

/-- String.prototype.trim. -/
def jsTrim (s : String) : String :=
  ⟨((s.data.dropWhile Char.isWhitespace).reverse.dropWhile
      Char.isWhitespace).reverse⟩

mutual

/-- Splitting on a maximal whitespace run, as the JS regex split on one
or more whitespace characters does: accumulate the current word. -/
def wsSplitGo : List Char → List Char → List String
  | [], cur => [⟨cur.reverse⟩]
  | c :: rest, cur =>
    if c.isWhitespace then ⟨cur.reverse⟩ :: wsSkipGo rest
    else wsSplitGo rest (c :: cur)

/-- Skip the remainder of a whitespace run, then continue with a new word. -/
def wsSkipGo : List Char → List String
  | [] => [""]
  | c :: rest =>
    if c.isWhitespace then wsSkipGo rest
    else wsSplitGo rest [c]

end

/-- The JS split on a whitespace regex, including the empty leading and
trailing pieces JS produces for leading and trailing whitespace. -/
def jsSplitWs (s : String) : List String := wsSplitGo s.data []

/-- Whether pat occurs at the head of text. -/
def leadsWith : List Char → List Char → Bool
  | [], _ => true
  | _ :: _, [] => false
  | p :: ps, t :: ts => p == t && leadsWith ps ts

/-- Whether pat occurs contiguously anywhere in text. -/
def containsSeq (pat : List Char) : List Char → Bool
  | [] => leadsWith pat []
  | c :: rest => leadsWith pat (c :: rest) || containsSeq pat rest

/-- s.includes(sub). -/
def jsIncludes (s sub : String) : Bool := containsSeq sub.data s.data

/-! ### Stock ledger data model (inventory.service.ts) -/

/-- The movement type union of inventory.service.ts. -/
inductive MovementType where
  | IN
  | OUT
  | ADJUSTMENT
deriving DecidableEq

/-- StockMovement record (inventory.service.ts, interface StockMovement),
omitting the generated document id and the createdAt timestamp. The type
field is named mvType because type is reserved in Lean. -/
structure StockMovement where
  inventoryItemId : String
  inventoryItemName : String
  mvType : MovementType
  quantity : ℚ
  previousStock : ℚ
  newStock : ℚ
  reason : String
  notes : Option String
  createdBy : String
deriving DecidableEq

/-- Inventory item document (collection inventory_items). Only the fields
the claims touch are carried. The client service reads and writes
currentPhysicalStock; the cloud function reads and writes the distinct
currentStock field, which is absent (none) until the function first
writes it. -/
structure InventoryItem where
  id : String
  name : String
  currentPhysicalStock : ℚ
  currentStock : Option ℚ
deriving DecidableEq

/-- The switch statement of updatePhysicalStockAsync
(inventory.service.ts lines 226-238). -/
def computeNewStock (t : MovementType) (previousStock quantity : ℚ) : ℚ :=
  match t with
  | .IN => previousStock + quantity
  | .OUT => jsMax 0 (previousStock - quantity)
  | .ADJUSTMENT => quantity

/-! ### Mapping store (square-integration.service.ts) -/

/-- Stored document of the product_square_mappings collection; syncEnabled
is the raw field, which may be absent (none). createdAt, updatedAt and the
name fields not used by the claims are dropped; lastSyncedAt is kept as an
abstract clock value. -/
structure StoredMapping where
  id : String
  productId : String
  squareCatalogObjectId : String
  squareItemVariationId : String
  productName : String
  squareItemName : String
  syncEnabled : Option Bool
  lastSyncedAt : Option Nat
deriving DecidableEq

/-- ProductMapping as returned to callers of getProductMappings. -/
structure ProductMapping where
  id : String
  productId : String
  squareCatalogObjectId : String
  squareItemVariationId : String
  productName : String
  squareItemName : String
  syncEnabled : Bool
deriving DecidableEq

/-- The per-document conversion inside getProductMappingsAsync
(square-integration.service.ts lines 310-325); its syncEnabled is computed
by the JS expression data.syncEnabled || true. -/
def readMapping (m : StoredMapping) : ProductMapping :=
  { id := m.id
    productId := m.productId
    squareCatalogObjectId := m.squareCatalogObjectId
    squareItemVariationId := m.squareItemVariationId
    productName := m.productName
    squareItemName := m.squareItemName
    syncEnabled := jsOrBool m.syncEnabled true }

/-- The truthiness test m.syncEnabled applied by the cloud function, whose
mapping objects keep the raw field (functions/src/index.ts lines 506-532). -/
def fnSyncEnabled (m : StoredMapping) : Bool := jsTruthy m.syncEnabled

/-! ### Products -/

/-- A recipe line of a product. -/
structure ProductIngredient where
  inventoryItemId : String
  quantity : ℚ
deriving DecidableEq

/-- Product document; only the fields used by consumption and by the
mapping suggestion cascade are carried. -/
structure Product where
  id : String
  name : String
  variation : Option String
  sku : Option String
  token : Option String
  ingredients : List ProductIngredient
deriving DecidableEq

/-! ### Webhook log and cloud-function movement records -/

/-- Entry of the square_webhook_logs collection as written by
logWebhookEvent (functions/src/index.ts lines 654-674); the processed flag
is always true there. -/
structure WebhookLogEntry where
  eventId : String
  eventType : String
  processed : Bool
  success : Bool
  errorMessage : Option String
deriving DecidableEq

/-- Movement record the cloud function appends to the
inventory_stock_movements collection (functions/src/index.ts lines
591-603). Its type field is the literal string OUT in the source, modelled
as the OUT constructor. -/
structure FnMovement where
  inventoryItemId : String
  mvType : MovementType
  quantity : ℚ
  reason : String
  description : String
  previousStock : ℚ
  newStock : ℚ
  createdBy : String
deriving DecidableEq

/-! ### The document store -/

/-- The Firestore state touched by the reconciliation engine. configKey is
the webhookSignatureKey of the first square_config document (none when no
config or no key exists). -/
structure Db where
  inventoryItems : List InventoryItem
  stockMovements : List StockMovement
  fnStockMovements : List FnMovement
  products : List Product
  storedMappings : List StoredMapping
  webhookLogs : List WebhookLogEntry
  configKey : Option String
deriving DecidableEq

/-- getProductMappingsAsync: read every document of the
product_square_mappings collection and convert it. -/
def getProductMappings (db : Db) : List ProductMapping :=
  db.storedMappings.map readMapping

/-- deleteProductMappingAsync (square-integration.service.ts lines
347-359): soft-delete by writing syncEnabled = false on the stored
document. -/
def deleteProductMapping (db : Db) (mappingId : String) : Db :=
  { db with
    storedMappings := db.storedMappings.map fun m =>
      if m.id == mappingId then { m with syncEnabled := some false } else m }

/-- toggleMappingSyncAsync (square-integration.service.ts lines 365-377). -/
def toggleMappingSync (db : Db) (mappingId : String) (enabled : Bool) : Db :=
  { db with
    storedMappings := db.storedMappings.map fun m =>
      if m.id == mappingId then { m with syncEnabled := some enabled } else m }

/-! ### Client stock ledger operations -/

/-- getDoc on inventory_items by id (getInventoryItemAsync). -/
def findItem (db : Db) (itemId : String) : Option InventoryItem :=
  db.inventoryItems.find? fun it => it.id == itemId

/-- updateDoc of currentPhysicalStock on one inventory item. -/
def setItemPhysical (db : Db) (itemId : String) (v : ℚ) : Db :=
  { db with
    inventoryItems := db.inventoryItems.map fun it =>
      if it.id == itemId then { it with currentPhysicalStock := v } else it }

/-- updatePhysicalStockAsync (inventory.service.ts lines 207-264): resolve
the item (none models the thrown not-found error, in which case nothing is
written), compute the new stock from the movement type, write it back, and
append the movement record; the recorded quantity is
Math.abs(finalQuantity - previousStock). -/
def clientUpdatePhysicalStock (db : Db) (itemId : String) (newQuantity : ℚ)
    (t : MovementType) (reason : String) (notes : Option String)
    (userId : String) : Option Db :=
  match findItem db itemId with
  | none => none
  | some item =>
    let previousStock := item.currentPhysicalStock
    let finalQuantity := computeNewStock t previousStock newQuantity
    let db1 := setItemPhysical db itemId finalQuantity
    some { db1 with
      stockMovements := db1.stockMovements ++
        [{ inventoryItemId := itemId
           inventoryItemName := item.name
           mvType := t
           quantity := jsAbs (finalQuantity - previousStock)
           previousStock := previousStock
           newStock := finalQuantity
           reason := reason
           notes := notes
           createdBy := userId }] }

/-! ### Client sale consumption engine
(square-integration.service.ts processSquareSaleAsync) -/

/-- A Square order line item. Its quantity string is modelled by the
natural number it parses to (the engine immediately applies parseInt);
lines with a non-numeric quantity string are outside the model. -/
structure OrderItem where
  uid : String
  catalog_object_id : String
  quantity : Nat
deriving DecidableEq

/-- SyncResult (square-integration.service.ts lines 141-147) without the
lastSyncAt timestamp. -/
structure SyncResult where
  success : Bool
  itemsProcessed : Nat
  itemsUpdated : Nat
  errors : List String
deriving DecidableEq

/-- The mapping lookup of processSquareSaleAsync line 431: first mapping
whose squareItemVariationId equals the catalog id of the line and whose
syncEnabled flag is truthy. -/
def clientFindMapping (mappings : List ProductMapping) (oi : OrderItem) :
    Option ProductMapping :=
  mappings.find? fun m =>
    (m.squareItemVariationId == oi.catalog_object_id) && m.syncEnabled

/-- The inner ingredient loop of processSquareSaleAsync lines 450-460:
each ingredient consumes quantity * soldQty through the stock ledger; a
ledger throw (item not found) aborts the remaining ingredients of this
line and surfaces as the catch message of line 464, with writes made so
far kept. -/
def clientProcessIngredients (userId : String) (soldQty : Nat)
    (note : String) : Db → List ProductIngredient → Db × Option String
  | db, [] => (db, none)
  | db, ing :: rest =>
    match clientUpdatePhysicalStock db ing.inventoryItemId
        (ing.quantity * (soldQty : ℚ)) .OUT "Square sale consumption"
        (some note) userId with
    | none =>
      (db, some "Failed to process order item: Error: Inventory item not found")
    | some db1 => clientProcessIngredients userId soldQty note db1 rest

/-- One iteration of the order-item loop of processSquareSaleAsync lines
428-466. Returns the new store state, the error recorded for this line if
any, and whether itemsUpdated was incremented. -/
def clientProcessOrderItem (mappings : List ProductMapping)
    (squareOrderId userId : String) (db : Db) (oi : OrderItem) :
    Db × Option String × Bool :=
  match clientFindMapping mappings oi with
  | none => (db, none, false)
  | some mapping =>
    match db.products.find? (fun p => p.id == mapping.productId) with
    | none => (db, some ("Product not found for mapping: " ++ mapping.productName), false)
    | some product =>
      let quantity := oi.quantity
      let note := "Order " ++ squareOrderId ++ ": " ++ jsNatToString quantity
        ++ "x " ++ product.name
      match clientProcessIngredients userId quantity note db product.ingredients with
      | (db1, none) => (db1, none, true)
      | (db1, some e) => (db1, some e, false)

/-- The order-item loop, accumulating errors and the itemsUpdated count. -/
def clientProcessItems (mappings : List ProductMapping)
    (squareOrderId userId : String) : Db → List OrderItem →
    Db × List String × Nat
  | db, [] => (db, [], 0)
  | db, oi :: rest =>
    match clientProcessOrderItem mappings squareOrderId userId db oi with
    | (db1, e, upd) =>
      match clientProcessItems mappings squareOrderId userId db1 rest with
      | (db2, errs, updCount) =>
        (db2, e.toList ++ errs, (if upd then 1 else 0) + updCount)

/-- processSquareSaleAsync (square-integration.service.ts lines 408-474):
read mappings, bail out with an error when none are configured, otherwise
process every line, and report success iff no errors were recorded. -/
def clientProcessSale (db : Db) (squareOrderId userId : String)
    (orderItems : List OrderItem) : SyncResult × Db :=
  let mappings := getProductMappings db
  if mappings.isEmpty then
    ({ success := false, itemsProcessed := 0, itemsUpdated := 0,
       errors := ["No product mappings configured"] }, db)
  else
    match clientProcessItems mappings squareOrderId userId db orderItems with
    | (db1, errors, updCount) =>
      ({ success := errors.isEmpty
         itemsProcessed := orderItems.length
         itemsUpdated := updCount
         errors := errors }, db1)

/-! ### Cloud-function consumption engine
(functions/src/index.ts processWebhookEvent) -/

/-- The order carried in the webhook event envelope, flattening
data.object.order. -/
structure SquareOrder where
  id : String
  state : String
  line_items : List OrderItem
deriving DecidableEq

/-- The webhook event envelope. The type field is named eventType. -/
structure SquareEvent where
  merchant_id : String
  eventType : String
  event_id : String
  order : SquareOrder
deriving DecidableEq

/-- parseInt(lineItem.quantity) || 1 (functions/src/index.ts line 561): a
parsed quantity of 0 is falsy and replaced by 1. -/
def fnParseQty (n : Nat) : Nat := if n == 0 then 1 else n

/-- updateDoc of currentStock on one inventory item (the field the cloud
function uses, distinct from currentPhysicalStock). -/
def fnSetItemCurrent (db : Db) (itemId : String) (v : ℚ) : Db :=
  { db with
    inventoryItems := db.inventoryItems.map fun it =>
      if it.id == itemId then { it with currentStock := some v } else it }

/-- The ingredient body of processWebhookEvent (functions/src/index.ts
lines 568-611): skip falsy ids or quantities, skip missing inventory
items, otherwise clamp-decrement currentStock (read with || 0) and append
the movement record, whose quantity is the requested consumedQuantity. -/
def fnProcessIngredient (orderId productName : String) (soldQty : Nat)
    (db : Db) (ing : ProductIngredient) : Db :=
  if ing.inventoryItemId == "" || ing.quantity == 0 then db
  else
    let consumedQuantity := ing.quantity * (soldQty : ℚ)
    match findItem db ing.inventoryItemId with
    | none => db
    | some item =>
      let currentStock := item.currentStock.getD 0
      let newStock := jsMax 0 (currentStock - consumedQuantity)
      let db1 := fnSetItemCurrent db ing.inventoryItemId newStock
      { db1 with
        fnStockMovements := db1.fnStockMovements ++
          [{ inventoryItemId := ing.inventoryItemId
             mvType := .OUT
             quantity := consumedQuantity
             reason := "Square sale consumption"
             description := "Order " ++ orderId ++ ": "
               ++ jsNatToString soldQty ++ "x " ++ productName
             previousStock := currentStock
             newStock := newStock
             createdBy := "square-webhook" }] }

/-- One iteration of the line-item loop of processWebhookEvent lines
527-621: resolve an enabled mapping (raw syncEnabled truthiness), resolve
the product, then consume every ingredient; a missing product records a
line error. -/
def fnProcessLineItem (mappings : List StoredMapping) (orderId : String)
    (db : Db) (li : OrderItem) : Db × Option String × Bool :=
  match mappings.find? (fun m =>
      (m.squareItemVariationId == li.catalog_object_id) && fnSyncEnabled m) with
  | none => (db, none, false)
  | some mapping =>
    match db.products.find? (fun p => p.id == mapping.productId) with
    | none => (db, some ("Product not found: " ++ mapping.productName), false)
    | some product =>
      let quantity := fnParseQty li.quantity
      let db1 := product.ingredients.foldl
        (fnProcessIngredient orderId mapping.productName quantity) db
      (db1, none, true)

/-- The line-item loop of processWebhookEvent, accumulating errors and the
itemsUpdated count. -/
def fnProcessItems (mappings : List StoredMapping) (orderId : String) :
    Db → List OrderItem → Db × List String × Nat
  | db, [] => (db, [], 0)
  | db, li :: rest =>
    match fnProcessLineItem mappings orderId db li with
    | (db1, e, upd) =>
      match fnProcessItems mappings orderId db1 rest with
      | (db2, errs, updCount) =>
        (db2, e.toList ++ errs, (if upd then 1 else 0) + updCount)

/-- update of lastSyncedAt on one stored mapping (functions/src/index.ts
lines 630-634), using the abstract clock value now. -/
def setMappingLastSynced (db : Db) (mappingId : String) (now : Nat) : Db :=
  { db with
    storedMappings := db.storedMappings.map fun m =>
      if m.id == mappingId then { m with lastSyncedAt := some now } else m }

/-- processWebhookEvent (functions/src/index.ts lines 470-645): filter by
event type and by completed order state (both acknowledged as success
without effect), fail when no mappings exist at all, otherwise process
every line item, refresh lastSyncedAt on every mapping matched by some
line (regardless of syncEnabled), and succeed iff no line errored. -/
def processWebhookEvent (event : SquareEvent) (now : Nat) (db : Db) :
    Bool × Db :=
  if !(["order.created", "order.updated", "order.fulfillment.updated"].contains
      event.eventType) then
    (true, db)
  else
    let order := event.order
    if order.state != "COMPLETED" then (true, db)
    else
      let mappings := db.storedMappings
      if mappings.isEmpty then (false, db)
      else
        match fnProcessItems mappings order.id db order.line_items with
        | (db1, errors, _itemsUpdated) =>
          let relevantMappings := mappings.filter fun m =>
            order.line_items.any fun li =>
              li.catalog_object_id == m.squareItemVariationId
          let db2 := relevantMappings.foldl
            (fun d m => setMappingLastSynced d m.id now) db1
          (errors.isEmpty, db2)

/-! ### Webhook intake (functions/src/index.ts squareWebhook) -/

/-- An inbound HTTP request to the squareWebhook endpoint. rawBody stands
for JSON.stringify(req.body); the event is the parsed body. -/
structure WebhookRequest where
  method : String
  event : SquareEvent
  signature : Option String
  rawBody : String
deriving DecidableEq

/-- An HTTP response: status code and body text. -/
structure HttpResponse where
  status : Nat
  body : String
deriving DecidableEq

/-- logWebhookEvent (functions/src/index.ts lines 654-674): append one log
entry; processed is always written as true. -/
def logWebhookEvent (db : Db) (e : SquareEvent) (success : Bool)
    (errorMessage : Option String) : Db :=
  { db with
    webhookLogs := db.webhookLogs ++
      [{ eventId := e.event_id
         eventType := e.eventType
         processed := true
         success := success
         errorMessage := errorMessage }] }

/-- The dedup check and dispatch of squareWebhook (functions/src/index.ts
lines 433-455), after the method and signature gates. -/
def squareWebhookMain (now : Nat) (db : Db) (req : WebhookRequest) :
    Db × HttpResponse :=
  if db.webhookLogs.any (fun l => l.eventId == req.event.event_id) then
    (db, ⟨200, "OK - Already processed"⟩)
  else
    match processWebhookEvent req.event now db with
    | (true, db1) => (logWebhookEvent db1 req.event true none, ⟨200, "OK"⟩)
    | (false, db1) =>
      (logWebhookEvent db1 req.event false (some "Processing failed"),
        ⟨500, "Processing failed"⟩)

/-- squareWebhook (functions/src/index.ts lines 376-464). verify abstracts
the HMAC comparison of verifySquareSignature (body, signature, key); the
signature check runs only when both a configured key and a supplied
signature are present, before the dedup check. -/
def squareWebhook (verify : String → String → String → Bool) (now : Nat)
    (db : Db) (req : WebhookRequest) : Db × HttpResponse :=
  if req.method != "POST" then (db, ⟨405, "Method Not Allowed"⟩)
  else
    match db.configKey, req.signature with
    | some key, some sig =>
      if verify req.rawBody sig key then squareWebhookMain now db req
      else
        (logWebhookEvent db req.event false (some "Invalid signature"),
          ⟨401, "Unauthorized - Invalid signature"⟩)
    | _, _ => squareWebhookMain now db req

/-- Whether the signature gate of squareWebhook lets the request through
to the dedup check. -/
def sigGate (verify : String → String → String → Bool) (db : Db)
    (req : WebhookRequest) : Bool :=
  match db.configKey, req.signature with
  | some key, some sig => verify req.rawBody sig key
  | _, _ => true

/-! ### Mapping suggestions
(square-integration.service.ts suggestProductMappings, lines 549-648) -/

/-- item_variation_data of a Square catalog object, with the fields the
cascade reads. -/
structure SquareItemVariationData where
  name : Option String
  sku : Option String
deriving DecidableEq

/-- A Square catalog object; the type field is named objType. -/
structure SquareCatalogObject where
  objType : String
  id : String
  item_variation_data : Option SquareItemVariationData
deriving DecidableEq

/-- One suggestion entry as pushed by suggestProductMappings. -/
structure Suggestion where
  lobbyTraceProduct : Product
  squareItem : SquareCatalogObject
  confidence : ℚ
  reason : String
deriving DecidableEq

/-- The normalized product name: ltProduct.name.toLowerCase().trim(). -/
def ltNameOf (p : Product) : String := jsTrim (jsToLower p.name)

/-- (ltProduct.variation || '').toLowerCase().trim(). -/
def ltVariationOf (p : Product) : String := jsTrim (jsToLower (p.variation.getD ""))

/-- (ltProduct.sku || '').toLowerCase().trim(). -/
def ltSkuOf (p : Product) : String := jsTrim (jsToLower (p.sku.getD ""))

/-- ltVariation ? ltName + " " + ltVariation : ltName. -/
def ltFullNameOf (p : Product) : String :=
  if ltVariationOf p != "" then ltNameOf p ++ " " ++ ltVariationOf p
  else ltNameOf p

/-- (sqItem.item_variation_data?.name || '').toLowerCase().trim(). -/
def sqNameOf (sq : SquareCatalogObject) : String :=
  jsTrim (jsToLower ((sq.item_variation_data.bind (fun d => d.name)).getD ""))

/-- (sqItem.item_variation_data?.sku || '').toLowerCase().trim(). -/
def sqSkuOf (sq : SquareCatalogObject) : String :=
  jsTrim (jsToLower ((sq.item_variation_data.bind (fun d => d.sku)).getD ""))

/-- The mutually-containing-words count of the partial-name rule:
ltWords.filter(word => sqWords.some(sqWord => sqWord.includes(word) ||
word.includes(sqWord))). -/
def commonWordsOf (ltWords sqWords : List String) : List String :=
  ltWords.filter fun word =>
    sqWords.any fun sqWord => jsIncludes sqWord word || jsIncludes word sqWord

/-- The rule cascade body of suggestProductMappings for one (product,
catalog object) pair, in source order: exact full-name match, exact name
match, SKU match, token match, then partial word overlap; at most one
suggestion is pushed per pair because every taken branch continues the
loop. The 0.7 threshold factor is modelled as the exact rational (the
source compares against a JS double). -/
def pairSuggestion (ltProduct : Product) (sqItem : SquareCatalogObject) :
    Option Suggestion :=
  if sqItem.objType != "ITEM_VARIATION" then none
  else
    let ltName := ltNameOf ltProduct
    let ltSku := ltSkuOf ltProduct
    let sqName := sqNameOf sqItem
    let sqSku := sqSkuOf sqItem
    let ltFullName := ltFullNameOf ltProduct
    if ltFullName == sqName then
      some ⟨ltProduct, sqItem, 0.95, "Exact name + variation match"⟩
    else if ltName == sqName then
      some ⟨ltProduct, sqItem, 0.90, "Exact name match"⟩
    else if ltSku != "" && sqSku != "" && ltSku == sqSku then
      some ⟨ltProduct, sqItem, 0.90, "SKU match"⟩
    else if (ltProduct.token.getD "") != "" && sqItem.id == ltProduct.token.getD "" then
      some ⟨ltProduct, sqItem, 0.95, "Token ID match"⟩
    else
      let ltWords := jsSplitWs ltFullName
      let sqWords := jsSplitWs sqName
      let commonWords := commonWordsOf ltWords sqWords
      if ((min ltWords.length sqWords.length : ℚ) * 0.7 ≤ (commonWords.length : ℚ)) then
        some ⟨ltProduct, sqItem, 0.75,
          "Partial name match (" ++ jsNatToString commonWords.length ++ "/"
            ++ jsNatToString ltWords.length ++ " words)"⟩
      else none

/-- Descending-by-confidence order used by the JS numeric comparator
sort((a, b) => b.confidence - a.confidence). -/
def confGe (a b : Suggestion) : Prop := b.confidence ≤ a.confidence

instance : DecidableRel confGe := fun a b =>
  inferInstanceAs (Decidable (b.confidence ≤ a.confidence))

instance : IsTotal Suggestion confGe :=
  ⟨fun a b => le_total b.confidence a.confidence⟩

instance : IsTrans Suggestion confGe :=
  ⟨fun _ _ _ hab hbc => le_trans hbc hab⟩

/-- The sort of suggestProductMappings line 641; JS sort is stable, which
insertion sort realizes. -/
def sortByConfidenceDesc (l : List Suggestion) : List Suggestion :=
  List.insertionSort confGe l

/-- The duplicate filter of suggestProductMappings lines 642-647: keep an
entry iff it is the first with its (product id, square item id) pair. -/
def dedupFirst : List Suggestion → List (String × String) → List Suggestion
  | [], _ => []
  | s :: rest, seen =>
    let k := (s.lobbyTraceProduct.id, s.squareItem.id)
    if k ∈ seen then dedupFirst rest seen
    else s :: dedupFirst rest (k :: seen)

/-- suggestProductMappings (square-integration.service.ts lines 549-648):
push the cascade result of every (product, catalog object) pair in nested
loop order, sort descending by confidence, and drop duplicate (product id,
square item id) pairs keeping the first occurrence. -/
def suggestProductMappings (lobbyTraceProducts : List Product)
    (squareItems : List SquareCatalogObject) : List Suggestion :=
  let suggestions :=
    (lobbyTraceProducts.map fun p => squareItems.filterMap (pairSuggestion p)).flatten
  dedupFirst (sortByConfidenceDesc suggestions) []

/-! #### Spec-level restatement of the cascade, for the refinement
comparison of claim C10. Each rule returns a confidence and reason; the
cascade takes the first rule that fires, in the corrected priority
order. -/

/-- Rule: normalized full-name (name plus variation) equality. -/
def ruleFullName (p : Product) (sq : SquareCatalogObject) : Option (ℚ × String) :=
  if ltFullNameOf p = sqNameOf sq then some (0.95, "Exact name + variation match")
  else none

/-- Rule: name-only equality. -/
def ruleNameOnly (p : Product) (sq : SquareCatalogObject) : Option (ℚ × String) :=
  if ltNameOf p = sqNameOf sq then some (0.90, "Exact name match") else none

/-- Rule: SKU equality with both SKUs non-empty. -/
def ruleSku (p : Product) (sq : SquareCatalogObject) : Option (ℚ × String) :=
  if ltSkuOf p ≠ "" ∧ sqSkuOf sq ≠ "" ∧ ltSkuOf p = sqSkuOf sq then
    some (0.90, "SKU match")
  else none

/-- Rule: token / catalog-object-id equality. -/
def ruleToken (p : Product) (sq : SquareCatalogObject) : Option (ℚ × String) :=
  if (p.token.getD "") ≠ "" ∧ sq.id = p.token.getD "" then
    some (0.95, "Token ID match")
  else none

/-- Rule: at least 70 percent of the shorter word list mutually contained. -/
def ruleOverlap (p : Product) (sq : SquareCatalogObject) : Option (ℚ × String) :=
  let ltWords := jsSplitWs (ltFullNameOf p)
  let sqWords := jsSplitWs (sqNameOf sq)
  let commonWords := commonWordsOf ltWords sqWords
  if (min ltWords.length sqWords.length : ℚ) * 0.7 ≤ (commonWords.length : ℚ) then
    some (0.75, "Partial name match (" ++ jsNatToString commonWords.length
      ++ "/" ++ jsNatToString ltWords.length ++ " words)")
  else none

/-- First rule that fires. -/
def firstSome : List (Option (ℚ × String)) → Option (ℚ × String)
  | [] => none
  | some x :: _ => some x
  | none :: rest => firstSome rest

/-- The cascade as the spec describes it, with the corrected rule order of
claim C10: full name, name only, SKU, token, word overlap, first match
wins, only for catalog objects of type ITEM_VARIATION. -/
def specSuggestionCascade (p : Product) (sq : SquareCatalogObject) :
    Option Suggestion :=
  if sq.objType = "ITEM_VARIATION" then
    (firstSome [ruleFullName p sq, ruleNameOnly p sq, ruleSku p sq,
      ruleToken p sq, ruleOverlap p sq]).map fun cr => ⟨p, sq, cr.1, cr.2⟩
  else none

/-! ### Sequences of ledger applications, for the non-negativity claim -/

/-- One ledger application: either a manual updatePhysicalStock call of
the client service, or one webhook-driven ingredient consumption step of
the cloud function. -/
inductive ApplyCall where
  | manual (itemId : String) (q : ℚ) (t : MovementType) (reason : String)
      (notes : Option String) (userId : String)
  | webhookConsume (orderId productName : String) (soldQty : Nat)
      (ing : ProductIngredient)
deriving DecidableEq

/-- The requested quantity of a ledger application (for the webhook step,
the consumed quantity ingredient.quantity * soldQty). -/
def callQuantity : ApplyCall → ℚ
  | .manual _ q _ _ _ _ => q
  | .webhookConsume _ _ soldQty ing => ing.quantity * (soldQty : ℚ)

/-- Apply one ledger application to the store. A manual call on a missing
item throws in the source and writes nothing, modelled by getD db. -/
def applyCall (db : Db) : ApplyCall → Db
  | .manual itemId q t reason notes userId =>
    (clientUpdatePhysicalStock db itemId q t reason notes userId).getD db
  | .webhookConsume orderId productName soldQty ing =>
    fnProcessIngredient orderId productName soldQty db ing

/-- Apply a sequence of ledger applications in order. -/
def applyCalls (db : Db) (calls : List ApplyCall) : Db :=
  calls.foldl applyCall db

/-- Every inventory item holds non-negative stock, in both the
currentPhysicalStock field and the cloud-function currentStock field
(an absent currentStock reads as 0). -/
def stocksNonneg (db : Db) : Bool :=
  db.inventoryItems.all fun it =>
    decide (0 ≤ it.currentPhysicalStock) && decide (0 ≤ it.currentStock.getD 0)

/-- The movement record updatePhysicalStockAsync writes for an existing
item, as a function of the item found and the call arguments. -/
def clientMovementOf (itemId : String) (item : InventoryItem)
    (t : MovementType) (q : ℚ) (r : String) (nts : Option String)
    (uid : String) : StockMovement :=
  { inventoryItemId := itemId
    inventoryItemName := item.name
    mvType := t
    quantity := jsAbs (computeNewStock t item.currentPhysicalStock q
      - item.currentPhysicalStock)
    previousStock := item.currentPhysicalStock
    newStock := computeNewStock t item.currentPhysicalStock q
    reason := r
    notes := nts
    createdBy := uid }

/-- The movement record the cloud function writes for an existing item, as
a function of the item found and the consumption arguments. -/
def fnMovementOf (orderId productName : String) (soldQty : Nat)
    (item : InventoryItem) (ing : ProductIngredient) : FnMovement :=
  { inventoryItemId := ing.inventoryItemId
    mvType := .OUT
    quantity := ing.quantity * (soldQty : ℚ)
    reason := "Square sale consumption"
    description := "Order " ++ orderId ++ ": " ++ jsNatToString soldQty
      ++ "x " ++ productName
    previousStock := item.currentStock.getD 0
    newStock := jsMax 0 (item.currentStock.getD 0 - ing.quantity * (soldQty : ℚ))
    createdBy := "square-webhook" }

/-- A sale line that cannot record an error in processSquareSaleAsync:
either it is unmapped, or its product exists and every recipe ingredient
resolves to an existing inventory item. Only existence is checked, so the
predicate is stable under stock updates. -/
def lineOkClient (mappings : List ProductMapping) (db : Db) (oi : OrderItem) :
    Bool :=
  match clientFindMapping mappings oi with
  | none => true
  | some m =>
    match db.products.find? (fun p => p.id == m.productId) with
    | none => false
    | some product =>
      product.ingredients.all fun ing =>
        (findItem db ing.inventoryItemId).isSome

/-- The movement the sale consumption engine writes for one recipe
ingredient when the item exists and holds enough stock (claim C4): an OUT
of magnitude ingredient.quantity * soldQty with reason
"Square sale consumption". -/
def ingMovementOf (db : Db) (uid note : String) (n : Nat)
    (ing : ProductIngredient) : StockMovement :=
  match findItem db ing.inventoryItemId with
  | some item =>
    { inventoryItemId := ing.inventoryItemId
      inventoryItemName := item.name
      mvType := .OUT
      quantity := ing.quantity * (n : ℚ)
      previousStock := item.currentPhysicalStock
      newStock := item.currentPhysicalStock - ing.quantity * (n : ℚ)
      reason := "Square sale consumption"
      notes := some note
      createdBy := uid }
  | none => ⟨ing.inventoryItemId, "", .OUT, 0, 0, 0, "", none, ""⟩

/-! ### Concrete fixtures used by witnesses and counterexamples -/

/-- A stocked item holding 5 units. -/
def itemA : InventoryItem :=
  { id := "itemA", name := "Beans", currentPhysicalStock := 5,
    currentStock := none }

/-- A store with the single item itemA and nothing else. -/
def dbC1 : Db :=
  { inventoryItems := [itemA], stockMovements := [], fnStockMovements := [],
    products := [], storedMappings := [], webhookLogs := [], configKey := none }

/-- A sample manual restock call. -/
def c0fix : ApplyCall := .manual "x" 3 .IN "restock" none "u1"

/-- A stored mapping with syncEnabled stored as true. -/
def smFix : StoredMapping :=
  { id := "m1", productId := "p1", squareCatalogObjectId := "sqObj1",
    squareItemVariationId := "SQ1", productName := "Latte",
    squareItemName := "Latte", syncEnabled := some true, lastSyncedAt := none }

/-- A store holding only the mapping smFix. -/
def dbC7 : Db :=
  { inventoryItems := [], stockMovements := [], fnStockMovements := [],
    products := [], storedMappings := [smFix], webhookLogs := [],
    configKey := none }

/-- The mapping smFix soft-disabled in the store. -/
def smDisabled : StoredMapping := { smFix with syncEnabled := some false }

/-- A product whose recipe consumes 2 units of itemA. -/
def prodLatte : Product :=
  { id := "p1", name := "Latte", variation := none, sku := none,
    token := none, ingredients := [⟨"itemA", 2⟩] }

/-- A store with the disabled mapping, its product and the stocked item. -/
def dbC6 : Db :=
  { inventoryItems := [itemA], stockMovements := [], fnStockMovements := [],
    products := [prodLatte], storedMappings := [smDisabled],
    webhookLogs := [], configKey := none }

/-- A sale line for catalog id SQ1 with quantity 1. -/
def lineSQ1 : OrderItem := { uid := "l1", catalog_object_id := "SQ1", quantity := 1 }

/-- A sale line whose catalog id matches no mapping. -/
def lineNope : OrderItem := { uid := "l2", catalog_object_id := "SQX", quantity := 3 }

/-- A mapping from catalog id SQ2 to a product id that no document bears. -/
def smBad : StoredMapping :=
  { id := "m2", productId := "pGone", squareCatalogObjectId := "sqObj2",
    squareItemVariationId := "SQ2", productName := "Mocha",
    squareItemName := "Mocha", syncEnabled := some true, lastSyncedAt := none }

/-- A mapping from catalog id SQ3 to product p3. -/
def sm3 : StoredMapping :=
  { id := "m3", productId := "p3", squareCatalogObjectId := "sqObj3",
    squareItemVariationId := "SQ3", productName := "Espresso",
    squareItemName := "Espresso", syncEnabled := some true, lastSyncedAt := none }

/-- A second product consuming 1 unit of itemA. -/
def prodEspresso : Product :=
  { id := "p3", name := "Espresso", variation := none, sku := none,
    token := none, ingredients := [⟨"itemA", 1⟩] }

/-- A store for the three-line sale scenario: line 2 references the
missing product pGone. -/
def dbC5 : Db :=
  { inventoryItems := [itemA], stockMovements := [], fnStockMovements := [],
    products := [prodLatte, prodEspresso],
    storedMappings := [smFix, smBad, sm3], webhookLogs := [],
    configKey := none }

/-- A store with one enabled mapping, its product, and a stocked item. -/
def dbC4 : Db :=
  { inventoryItems := [itemA], stockMovements := [], fnStockMovements := [],
    products := [prodLatte], storedMappings := [smFix], webhookLogs := [],
    configKey := none }

/-- Line referencing the deleted product. -/
def lineBad : OrderItem := { uid := "l9", catalog_object_id := "SQ2", quantity := 1 }

/-- Third line of the scenario sale. -/
def lineSQ3 : OrderItem := { uid := "l3", catalog_object_id := "SQ3", quantity := 2 }

/-- A product that matches sqC10 both by exact name and by token. -/
def pC10 : Product :=
  { id := "pX", name := "Latte", variation := some "Hot", sku := none,
    token := some "TOK1", ingredients := [] }

/-- A catalog variation whose id equals the token of pC10 and whose name
equals the name (but not the full name) of pC10. -/
def sqC10 : SquareCatalogObject :=
  { objType := "ITEM_VARIATION", id := "TOK1",
    item_variation_data := some { name := some "Latte", sku := none } }

/-- A completed-order webhook event with no line items. -/
def evFix : SquareEvent :=
  { merchant_id := "M", eventType := "order.created", event_id := "EV1",
    order := { id := "o1", state := "COMPLETED", line_items := [] } }

/-- A POST delivery of evFix without a signature header. -/
def reqFix : WebhookRequest :=
  { method := "POST", event := evFix, signature := none, rawBody := "body" }

/-! ### Basic lemmas -/

theorem jsMax_eq_max (a b : ℚ) : jsMax a b = max a b := by
  rw [jsMax, max_def]

theorem jsAbs_eq_abs (a : ℚ) : jsAbs a = |a| := by
  rw [jsAbs]
  rcases lt_or_le a 0 with h | h
  · rw [if_pos h, abs_of_neg h]
  · rw [if_neg (not_lt_of_le h), abs_of_nonneg h]

theorem jsMax_nonneg (a b : ℚ) (ha : 0 ≤ a) : 0 ≤ jsMax a b := by
  rw [jsMax]; split
  · exact le_trans ha (by assumption)
  · exact ha

theorem jsOrBool_true (v : Option Bool) : jsOrBool v true = true := by
  rcases v with _ | b
  · rfl
  · cases b <;> rfl

theorem computeNewStock_nonneg (t : MovementType) (p q : ℚ) (hp : 0 ≤ p)
    (hq : 0 ≤ q) : 0 ≤ computeNewStock t p q := by
  cases t with
  | IN => exact add_nonneg hp hq
  | OUT => exact jsMax_nonneg 0 _ le_rfl
  | ADJUSTMENT => exact hq

/-- find? commutes with a map that does not change the predicate value. -/
theorem find?_map_of_pred {α : Type} (f : α → α) (p : α → Bool)
    (h : ∀ a, p (f a) = p a) (l : List α) :
    (l.map f).find? p = (l.find? p).map f := by
  induction l with
  | nil => rfl
  | cons a l ih =>
    by_cases ha : p a = true
    · simp [List.find?, h a, ha]
    · rw [Bool.not_eq_true] at ha
      simp [List.find?, h a, ha, ih]

theorem findItem_setItemPhysical (db : Db) (i j : String) (v : ℚ) :
    findItem (setItemPhysical db i v) j =
      (findItem db j).map fun it =>
        if it.id == i then { it with currentPhysicalStock := v } else it := by
  rw [findItem, setItemPhysical, findItem]
  exact find?_map_of_pred _ _ (fun a => by by_cases h : a.id == i <;> simp [h]) _

theorem findItem_fnSetItemCurrent (db : Db) (i j : String) (v : ℚ) :
    findItem (fnSetItemCurrent db i v) j =
      (findItem db j).map fun it =>
        if it.id == i then { it with currentStock := some v } else it := by
  rw [findItem, fnSetItemCurrent, findItem]
  exact find?_map_of_pred _ _ (fun a => by by_cases h : a.id == i <;> simp [h]) _

theorem findItem_setItemPhysical_self (db : Db) (i : String) (v : ℚ)
    (it : InventoryItem) (h : findItem db i = some it) :
    findItem (setItemPhysical db i v) i =
      some { it with currentPhysicalStock := v } := by
  have h' : List.find? (fun x => x.id == i) db.inventoryItems = some it := h
  have hid := List.find?_some h'
  simp only [] at hid
  rw [findItem_setItemPhysical, h, Option.map_some', if_pos hid]

theorem findItem_setItemPhysical_ne (db : Db) (i j : String) (v : ℚ)
    (hne : j ≠ i) : findItem (setItemPhysical db i v) j = findItem db j := by
  rw [findItem_setItemPhysical]
  cases hfind : findItem db j with
  | none => rfl
  | some it =>
    have h' : List.find? (fun x => x.id == j) db.inventoryItems = some it := hfind
    have hid := List.find?_some h'
    simp only [beq_iff_eq] at hid
    have : (it.id == i) = false := by simp [hid, hne]
    rw [Option.map_some', this]
    simp

theorem findItem_fnSetItemCurrent_ne (db : Db) (i j : String) (v : ℚ)
    (hne : j ≠ i) : findItem (fnSetItemCurrent db i v) j = findItem db j := by
  rw [findItem_fnSetItemCurrent]
  cases hfind : findItem db j with
  | none => rfl
  | some it =>
    have h' : List.find? (fun x => x.id == j) db.inventoryItems = some it := hfind
    have hid := List.find?_some h'
    simp only [beq_iff_eq] at hid
    have : (it.id == i) = false := by simp [hid, hne]
    rw [Option.map_some', this]
    simp

/-- Characterization of a successful updatePhysicalStockAsync run. -/
theorem clientUPS_eq (db : Db) (itemId : String) (q : ℚ) (t : MovementType)
    (r : String) (nts : Option String) (uid : String) (item : InventoryItem)
    (h : findItem db itemId = some item) :
    clientUpdatePhysicalStock db itemId q t r nts uid =
      some { setItemPhysical db itemId
              (computeNewStock t item.currentPhysicalStock q) with
             stockMovements := db.stockMovements ++
               [clientMovementOf itemId item t q r nts uid] } := by
  simp only [clientUpdatePhysicalStock, h]
  rfl

theorem stocksNonneg_mem {db : Db} {it : InventoryItem}
    (h : stocksNonneg db = true) (hit : it ∈ db.inventoryItems) :
    0 ≤ it.currentPhysicalStock ∧ 0 ≤ it.currentStock.getD 0 := by
  rw [stocksNonneg, List.all_eq_true] at h
  have := h it hit
  simpa using this

theorem stocksNonneg_of (db : Db)
    (h : ∀ it ∈ db.inventoryItems,
      0 ≤ it.currentPhysicalStock ∧ 0 ≤ it.currentStock.getD 0) :
    stocksNonneg db = true := by
  rw [stocksNonneg, List.all_eq_true]
  intro it hit
  simpa using h it hit

/-- One ledger application with a non-negative quantity preserves
non-negative stocks. -/
theorem stocksNonneg_applyCall (db : Db) (c : ApplyCall)
    (h : stocksNonneg db = true) (hq : 0 ≤ callQuantity c) :
    stocksNonneg (applyCall db c) = true := by
  cases c with
  | manual itemId q t r nts uid =>
    simp only [applyCall]
    cases hfind : findItem db itemId with
    | none => simp [clientUpdatePhysicalStock, hfind, h]
    | some item =>
      rw [clientUPS_eq db itemId q t r nts uid item hfind, Option.getD_some]
      have hitem : 0 ≤ item.currentPhysicalStock :=
        (stocksNonneg_mem h (List.mem_of_find?_eq_some hfind)).1
      apply stocksNonneg_of
      intro it hit
      simp only [setItemPhysical] at hit
      rcases List.mem_map.mp hit with ⟨x, hx, rfl⟩
      by_cases hxid : (x.id == itemId) = true
      · simp only [hxid, if_pos]
        refine ⟨computeNewStock_nonneg t _ q hitem ?_, (stocksNonneg_mem h hx).2⟩
        exact hq
      · rw [Bool.not_eq_true] at hxid
        simp only [hxid, Bool.false_eq_true, if_false]
        exact stocksNonneg_mem h hx
  | webhookConsume oid pname soldQty ing =>
    simp only [applyCall, fnProcessIngredient]
    by_cases hskip : (ing.inventoryItemId == "" || ing.quantity == 0) = true
    · simp [hskip, h]
    · rw [Bool.not_eq_true] at hskip
      simp only [hskip, Bool.false_eq_true, if_false]
      cases hfind : findItem db ing.inventoryItemId with
      | none => simpa using h
      | some item =>
        apply stocksNonneg_of
        intro it hit
        simp only [fnSetItemCurrent] at hit
        rcases List.mem_map.mp hit with ⟨x, hx, rfl⟩
        by_cases hxid : (x.id == ing.inventoryItemId) = true
        · simp only [hxid, if_pos]
          refine ⟨(stocksNonneg_mem h hx).1, ?_⟩
          simpa using jsMax_nonneg 0 _ le_rfl
        · rw [Bool.not_eq_true] at hxid
          simp only [hxid, Bool.false_eq_true, if_false]
          exact stocksNonneg_mem h hx

/-- A sequence of ledger applications with non-negative quantities
preserves non-negative stocks. -/
theorem stocksNonneg_applyCalls (db : Db) (calls : List ApplyCall)
    (h : stocksNonneg db = true) (hq : ∀ c ∈ calls, 0 ≤ callQuantity c) :
    stocksNonneg (applyCalls db calls) = true := by
  induction calls generalizing db with
  | nil => exact h
  | cons c cs ih =>
    rw [applyCalls, List.foldl_cons]
    exact ih (applyCall db c)
      (stocksNonneg_applyCall db c h (hq c (List.mem_cons_self c cs)))
      (fun d hd => hq d (List.mem_cons_of_mem c hd))

/-- Claim C1: for every inventory item and every finite sequence of ledger
applications (manual updatePhysicalStock calls or webhook-driven
consumption steps), each with non-negative quantity, every stored stock
value is non-negative after every prefix of the sequence; and a manual OUT
whose quantity exceeds the stock on hand clamps the stored
currentPhysicalStock to zero rather than letting it go negative. -/
theorem claim_C1_stock_nonneg
    (db : Db) (calls pre suf : List ApplyCall) (itemId : String) (q : ℚ)
    (r : String) (nts : Option String) (uid : String) (it : InventoryItem)
    (hsplit : calls = pre ++ suf)
    (hq : ∀ c ∈ calls, 0 ≤ callQuantity c)
    (hinit : stocksNonneg db = true)
    (hfind : findItem (applyCalls db pre) itemId = some it)
    (hlt : it.currentPhysicalStock < q) :
    stocksNonneg (applyCalls db pre) = true ∧
    (findItem (applyCall (applyCalls db pre)
        (.manual itemId q .OUT r nts uid)) itemId).map
      (fun x => x.currentPhysicalStock) = some 0 := by
  subst hsplit
  refine ⟨stocksNonneg_applyCalls db pre hinit
    (fun c hc => hq c (List.mem_append_left suf hc)), ?_⟩
  have hclamp : computeNewStock .OUT it.currentPhysicalStock q = 0 := by
    rw [computeNewStock, jsMax,
      if_neg (not_le.mpr (by linarith : it.currentPhysicalStock - q < 0))]
  simp only [applyCall]
  rw [clientUPS_eq _ _ _ _ _ _ _ it hfind, Option.getD_some]
  have : findItem { setItemPhysical (applyCalls db pre) itemId
      (computeNewStock .OUT it.currentPhysicalStock q) with
      stockMovements := (applyCalls db pre).stockMovements ++
        [clientMovementOf itemId it .OUT q r nts uid] } itemId =
      findItem (setItemPhysical (applyCalls db pre) itemId
        (computeNewStock .OUT it.currentPhysicalStock q)) itemId := rfl
  rw [this, findItem_setItemPhysical_self _ _ _ it hfind, Option.map_some', hclamp]

/-- Witness for claim C1 at a concrete store and call sequence. -/
theorem claim_C1_stock_nonneg_witness :
    stocksNonneg (applyCalls dbC1 []) = true ∧
    (findItem (applyCall (applyCalls dbC1 [])
        (.manual "itemA" 8 .OUT "audit" none "u1")) "itemA").map
      (fun x => x.currentPhysicalStock) = some 0 :=
  claim_C1_stock_nonneg dbC1 [c0fix] [] [c0fix] "itemA" 8 "audit" none "u1"
    itemA rfl (by decide) (by decide) (by decide) (by decide)

theorem findItem_fnSetItemCurrent_self (db : Db) (i : String) (v : ℚ)
    (it : InventoryItem) (h : findItem db i = some it) :
    findItem (fnSetItemCurrent db i v) i = some { it with currentStock := some v } := by
  have h' : List.find? (fun x => x.id == i) db.inventoryItems = some it := h
  have hid := List.find?_some h'
  simp only [] at hid
  rw [findItem_fnSetItemCurrent, h, Option.map_some', if_pos hid]

/-- Characterization of fnProcessIngredient on an existing item with
truthy ingredient fields. -/
theorem fnProcessIngredient_eq (db : Db) (oid pname : String) (soldQty : Nat)
    (ing : ProductIngredient) (item : InventoryItem)
    (hid : ing.inventoryItemId ≠ "") (hq : ing.quantity ≠ 0)
    (hfind : findItem db ing.inventoryItemId = some item) :
    fnProcessIngredient oid pname soldQty db ing =
      { fnSetItemCurrent db ing.inventoryItemId
          (jsMax 0 (item.currentStock.getD 0 - ing.quantity * (soldQty : ℚ))) with
        fnStockMovements := db.fnStockMovements ++
          [fnMovementOf oid pname soldQty item ing] } := by
  have hskip : (ing.inventoryItemId == "" || ing.quantity == 0) = false := by
    simp [hid, hq]
  simp only [fnProcessIngredient, hskip, Bool.false_eq_true, if_false, hfind]
  rfl

/-- Claim C2: a ledger application with quantity q on an existing item
with stock p stores p + q for IN, max 0 (p - q) for OUT and exactly q for
ADJUSTMENT, and the movement record carries previousStock p and newStock
equal to that stored value; the cloud-function OUT consumption step does
the same on the currentStock field with the consumed quantity. -/
theorem claim_C2_applyMovement
    (db : Db) (itemId : String) (q : ℚ) (t : MovementType) (r : String)
    (nts : Option String) (uid : String) (item : InventoryItem)
    (db2 : Db) (oid pname : String) (soldQty : Nat) (ing : ProductIngredient)
    (item2 : InventoryItem)
    (hq : 0 ≤ q) (hfind : findItem db itemId = some item)
    (hid2 : ing.inventoryItemId ≠ "") (hq2 : ing.quantity ≠ 0)
    (hfind2 : findItem db2 ing.inventoryItemId = some item2) :
    ((clientUpdatePhysicalStock db itemId q t r nts uid).map fun d =>
        ((findItem d itemId).map fun x => x.currentPhysicalStock,
          d.stockMovements)) =
      some (some (match t with
          | .IN => item.currentPhysicalStock + q
          | .OUT => max 0 (item.currentPhysicalStock - q)
          | .ADJUSTMENT => q),
        db.stockMovements ++ [clientMovementOf itemId item t q r nts uid]) ∧
    (clientMovementOf itemId item t q r nts uid).previousStock =
      item.currentPhysicalStock ∧
    (clientMovementOf itemId item t q r nts uid).newStock =
      computeNewStock t item.currentPhysicalStock q ∧
    ((findItem (fnProcessIngredient oid pname soldQty db2 ing)
        ing.inventoryItemId).map fun x => x.currentStock) =
      some (some (max 0 (item2.currentStock.getD 0
        - ing.quantity * (soldQty : ℚ)))) ∧
    (fnProcessIngredient oid pname soldQty db2 ing).fnStockMovements =
      db2.fnStockMovements ++ [fnMovementOf oid pname soldQty item2 ing] ∧
    (fnMovementOf oid pname soldQty item2 ing).previousStock =
      item2.currentStock.getD 0 ∧
    (fnMovementOf oid pname soldQty item2 ing).newStock =
      max 0 (item2.currentStock.getD 0 - ing.quantity * (soldQty : ℚ)) := by
  refine ⟨?_, rfl, rfl, ?_, ?_, rfl, ?_⟩
  · rw [clientUPS_eq _ _ _ _ _ _ _ item hfind, Option.map_some']
    have hfi : findItem { setItemPhysical db itemId
        (computeNewStock t item.currentPhysicalStock q) with
        stockMovements := db.stockMovements ++
          [clientMovementOf itemId item t q r nts uid] } itemId =
        findItem (setItemPhysical db itemId
          (computeNewStock t item.currentPhysicalStock q)) itemId := rfl
    rw [hfi, findItem_setItemPhysical_self _ _ _ item hfind, Option.map_some']
    cases t with
    | IN => rfl
    | OUT => simp only [computeNewStock, jsMax_eq_max]
    | ADJUSTMENT => rfl
  · rw [fnProcessIngredient_eq db2 oid pname soldQty ing item2 hid2 hq2 hfind2]
    have hfi : findItem { fnSetItemCurrent db2 ing.inventoryItemId
        (jsMax 0 (item2.currentStock.getD 0 - ing.quantity * (soldQty : ℚ))) with
        fnStockMovements := db2.fnStockMovements ++
          [fnMovementOf oid pname soldQty item2 ing] } ing.inventoryItemId =
        findItem (fnSetItemCurrent db2 ing.inventoryItemId
          (jsMax 0 (item2.currentStock.getD 0 - ing.quantity * (soldQty : ℚ))))
          ing.inventoryItemId := rfl
    rw [hfi, findItem_fnSetItemCurrent_self _ _ _ item2 hfind2,
      Option.map_some', jsMax_eq_max]
  · rw [fnProcessIngredient_eq db2 oid pname soldQty ing item2 hid2 hq2 hfind2]
  · rw [fnMovementOf, jsMax_eq_max]

/-- Witness for claim C2 at a concrete store, item and ingredient. -/
theorem claim_C2_applyMovement_witness :
    ((clientUpdatePhysicalStock dbC1 "itemA" 2 .IN "restock" none "u1").map
        fun d => ((findItem d "itemA").map fun x => x.currentPhysicalStock,
          d.stockMovements)) =
      some (some (itemA.currentPhysicalStock + 2),
        dbC1.stockMovements ++
          [clientMovementOf "itemA" itemA .IN 2 "restock" none "u1"]) ∧
    (clientMovementOf "itemA" itemA .IN 2 "restock" none "u1").previousStock =
      itemA.currentPhysicalStock ∧
    (clientMovementOf "itemA" itemA .IN 2 "restock" none "u1").newStock =
      computeNewStock .IN itemA.currentPhysicalStock 2 ∧
    ((findItem (fnProcessIngredient "o1" "Latte" 1 dbC1
        ⟨"itemA", 1⟩) "itemA").map fun x => x.currentStock) =
      some (some (max 0 (itemA.currentStock.getD 0 - 1 * ((1 : Nat) : ℚ)))) ∧
    (fnProcessIngredient "o1" "Latte" 1 dbC1 ⟨"itemA", 1⟩).fnStockMovements =
      dbC1.fnStockMovements ++ [fnMovementOf "o1" "Latte" 1 itemA ⟨"itemA", 1⟩] ∧
    (fnMovementOf "o1" "Latte" 1 itemA ⟨"itemA", 1⟩).previousStock =
      itemA.currentStock.getD 0 ∧
    (fnMovementOf "o1" "Latte" 1 itemA ⟨"itemA", 1⟩).newStock =
      max 0 (itemA.currentStock.getD 0 - 1 * ((1 : Nat) : ℚ)) :=
  claim_C2_applyMovement dbC1 "itemA" 2 .IN "restock" none "u1" itemA
    dbC1 "o1" "Latte" 1 ⟨"itemA", 1⟩ itemA
    (by decide) (by decide) (by decide) (by decide) (by decide)

/-- Counterexample to claim C9 as stated: in the client ledger path with
previousStock 5 and a requested OUT of 8, the recorded movement has
quantity 5 (the actual delta), not the requested magnitude 8. -/
theorem claim_C9_counterexample :
    ((clientUpdatePhysicalStock dbC1 "itemA" 8 .OUT "sale" none "u1").map
        fun d => d.stockMovements.map fun m =>
          (m.quantity, m.previousStock, m.newStock)) =
      some [((5 : ℚ), (5 : ℚ), (0 : ℚ))] ∧ (5 : ℚ) ≠ 8 := by
  have hfind : findItem dbC1 "itemA" = some itemA := by decide
  rw [clientUPS_eq _ _ _ _ _ _ _ itemA hfind]
  refine ⟨?_, by norm_num⟩
  simp only [Option.map_some']
  norm_num [dbC1, itemA, clientMovementOf, computeNewStock, jsMax, jsAbs]

/-- Claim C9 as amended: for an OUT whose requested quantity q exceeds the
stock p on hand, the stored stock becomes 0 and the recorded movement
satisfies newStock - previousStock = -p in both ledger paths; the
cloud-function record keeps the requested magnitude in its quantity field,
while the client record keeps the actual magnitude p, so exact depletion
accounting must be read from previousStock - newStock. -/
theorem claim_C9_out_clamp_accounting
    (db : Db) (itemId : String) (q : ℚ) (r : String) (nts : Option String)
    (uid : String) (item : InventoryItem)
    (db2 : Db) (oid pname : String) (soldQty : Nat) (ing : ProductIngredient)
    (item2 : InventoryItem)
    (hfind : findItem db itemId = some item)
    (h0p : 0 ≤ item.currentPhysicalStock) (hlt : item.currentPhysicalStock < q)
    (hid2 : ing.inventoryItemId ≠ "") (hq2 : ing.quantity ≠ 0)
    (hfind2 : findItem db2 ing.inventoryItemId = some item2)
    (h0c : 0 ≤ item2.currentStock.getD 0)
    (hlt2 : item2.currentStock.getD 0 < ing.quantity * (soldQty : ℚ)) :
    (clientMovementOf itemId item .OUT q r nts uid).newStock -
        (clientMovementOf itemId item .OUT q r nts uid).previousStock =
      -item.currentPhysicalStock ∧
    (clientMovementOf itemId item .OUT q r nts uid).quantity =
      item.currentPhysicalStock ∧
    ((clientUpdatePhysicalStock db itemId q .OUT r nts uid).map
        fun d => d.stockMovements) =
      some (db.stockMovements ++ [clientMovementOf itemId item .OUT q r nts uid]) ∧
    (fnMovementOf oid pname soldQty item2 ing).newStock -
        (fnMovementOf oid pname soldQty item2 ing).previousStock =
      -(item2.currentStock.getD 0) ∧
    (fnMovementOf oid pname soldQty item2 ing).quantity =
      ing.quantity * (soldQty : ℚ) ∧
    (fnProcessIngredient oid pname soldQty db2 ing).fnStockMovements =
      db2.fnStockMovements ++ [fnMovementOf oid pname soldQty item2 ing] := by
  have hclamp : computeNewStock .OUT item.currentPhysicalStock q = 0 := by
    rw [computeNewStock, jsMax,
      if_neg (not_le.mpr (by linarith : item.currentPhysicalStock - q < 0))]
  have hclamp2 : jsMax 0 (item2.currentStock.getD 0
      - ing.quantity * (soldQty : ℚ)) = 0 := by
    rw [jsMax, if_neg (not_le.mpr (by linarith))]
  have habs : jsAbs (0 - item.currentPhysicalStock) = item.currentPhysicalStock := by
    rw [jsAbs]
    rcases eq_or_lt_of_le h0p with h | h
    · rw [if_neg (by rw [← h]; norm_num)]
      rw [← h]
      norm_num
    · rw [if_pos (by linarith)]
      ring
  refine ⟨?_, ?_, ?_, ?_, rfl, ?_⟩
  · show computeNewStock .OUT item.currentPhysicalStock q -
        item.currentPhysicalStock = -item.currentPhysicalStock
    rw [hclamp]
    ring
  · show jsAbs (computeNewStock .OUT item.currentPhysicalStock q -
        item.currentPhysicalStock) = item.currentPhysicalStock
    rw [hclamp, zero_sub, ← zero_sub, habs]
  · rw [clientUPS_eq _ _ _ _ _ _ _ item hfind, Option.map_some']
  · show jsMax 0 (item2.currentStock.getD 0 - ing.quantity * (soldQty : ℚ)) -
        item2.currentStock.getD 0 = -(item2.currentStock.getD 0)
    rw [hclamp2]
    ring
  · rw [fnProcessIngredient_eq db2 oid pname soldQty ing item2 hid2 hq2 hfind2]

/-- Witness for the amended claim C9 at previousStock 5 and requested
quantity 8. -/
theorem claim_C9_out_clamp_accounting_witness :
    (clientMovementOf "itemA" itemA .OUT 8 "sale" none "u1").newStock -
        (clientMovementOf "itemA" itemA .OUT 8 "sale" none "u1").previousStock =
      -itemA.currentPhysicalStock ∧
    (clientMovementOf "itemA" itemA .OUT 8 "sale" none "u1").quantity =
      itemA.currentPhysicalStock ∧
    ((clientUpdatePhysicalStock dbC1 "itemA" 8 .OUT "sale" none "u1").map
        fun d => d.stockMovements) =
      some (dbC1.stockMovements ++
        [clientMovementOf "itemA" itemA .OUT 8 "sale" none "u1"]) ∧
    (fnMovementOf "o1" "Latte" 1 itemA ⟨"itemA", 2⟩).newStock -
        (fnMovementOf "o1" "Latte" 1 itemA ⟨"itemA", 2⟩).previousStock =
      -(itemA.currentStock.getD 0) ∧
    (fnMovementOf "o1" "Latte" 1 itemA ⟨"itemA", 2⟩).quantity =
      (2 : ℚ) * ((1 : Nat) : ℚ) ∧
    (fnProcessIngredient "o1" "Latte" 1 dbC1 ⟨"itemA", 2⟩).fnStockMovements =
      dbC1.fnStockMovements ++ [fnMovementOf "o1" "Latte" 1 itemA ⟨"itemA", 2⟩] :=
  claim_C9_out_clamp_accounting dbC1 "itemA" 8 "sale" none "u1" itemA
    dbC1 "o1" "Latte" 1 ⟨"itemA", 2⟩ itemA
    (by decide) (by decide) (by decide) (by decide) (by decide) (by decide)
    (by decide) (by norm_num [itemA])

/-- Claim C7: every mapping returned by getProductMappings reports
syncEnabled = true, whatever the stored field holds; in particular a
mapping soft-disabled through deleteProductMapping has syncEnabled stored
as false yet is still read back as enabled. -/
theorem claim_C7_mappings_read_enabled
    (db : Db) (m : ProductMapping) (hm : m ∈ getProductMappings db)
    (db2 : Db) (mid : String) (sm : StoredMapping)
    (hsm : sm ∈ (deleteProductMapping db2 mid).storedMappings)
    (hsmid : sm.id = mid) :
    m.syncEnabled = true ∧ sm.syncEnabled = some false ∧
    (readMapping sm).syncEnabled = true := by
  refine ⟨?_, ?_, jsOrBool_true _⟩
  · rcases List.mem_map.mp hm with ⟨s, _, rfl⟩
    exact jsOrBool_true _
  · rw [deleteProductMapping] at hsm
    rcases List.mem_map.mp hsm with ⟨x, hx, rfl⟩
    by_cases hxid : (x.id == mid) = true
    · simp [hxid]
    · rw [Bool.not_eq_true] at hxid
      simp only [hxid, Bool.false_eq_true, if_false] at hsmid ⊢
      rw [beq_eq_false_iff_ne] at hxid
      exact absurd hsmid hxid

/-- Witness for claim C7: the stored-true mapping reads as enabled, and
after a soft delete the stored flag is false yet it still reads as
enabled. -/
theorem claim_C7_mappings_read_enabled_witness :
    (readMapping smFix).syncEnabled = true ∧
    smDisabled.syncEnabled = some false ∧
    (readMapping smDisabled).syncEnabled = true :=
  claim_C7_mappings_read_enabled dbC7 (readMapping smFix) (by decide)
    dbC7 "m1" smDisabled (by decide) (by decide)

/-- If no stored mapping matches a catalog id, the client mapping lookup
finds nothing (the read conversion preserves the variation id). -/
theorem clientFindMapping_none (db : Db) (oi : OrderItem)
    (h : ∀ sm ∈ db.storedMappings,
      sm.squareItemVariationId ≠ oi.catalog_object_id) :
    clientFindMapping (getProductMappings db) oi = none := by
  rw [clientFindMapping, List.find?_eq_none]
  intro m hm
  rcases List.mem_map.mp hm with ⟨sm, hsm, rfl⟩
  have := h sm hsm
  simp [readMapping, this]

/-- If no stored mapping matches a catalog id with a truthy stored
syncEnabled, the cloud-function mapping lookup finds nothing. -/
theorem fnFindMapping_none (mappings : List StoredMapping) (li : OrderItem)
    (h : ∀ sm ∈ mappings,
      ¬(sm.squareItemVariationId = li.catalog_object_id ∧ fnSyncEnabled sm = true)) :
    mappings.find? (fun m =>
      (m.squareItemVariationId == li.catalog_object_id) && fnSyncEnabled m) = none := by
  rw [List.find?_eq_none]
  intro sm hsm
  have := h sm hsm
  simp only [Bool.and_eq_true, beq_iff_eq]
  intro hc
  exact this ⟨hc.1, hc.2⟩

/-- Counterexample to claim C6 as stated: a sale line whose only matching
mapping is stored with syncEnabled = false is nevertheless processed by
the client service (one ledger write, because the read path coerces
syncEnabled to true), instead of being skipped. -/
theorem claim_C6_counterexample :
    ((clientProcessSale dbC6 "o1" "u1" [lineSQ1]).2.stockMovements).length = 1 ∧
    (clientProcessSale dbC6 "o1" "u1" [lineSQ1]).1.errors = [] := by
  norm_num [clientProcessSale, clientProcessItems, clientProcessOrderItem,
    clientFindMapping, clientProcessIngredients, clientUpdatePhysicalStock,
    findItem, setItemPhysical, getProductMappings, readMapping, jsOrBool,
    dbC6, smDisabled, smFix, prodLatte, itemA, lineSQ1, computeNewStock,
    jsMax, jsAbs, clientMovementOf, List.find?]

/-- Claim C6 as amended: a sale line whose catalog id matches no stored
mapping at all is skipped with no ledger write and no error by both the
client service and the cloud function; a line whose only matching mapping
is stored with syncEnabled = false is skipped by the cloud function, but
the client service reads such a mapping as enabled and processes the line
(see the counterexample). -/
theorem claim_C6_unmapped_noop
    (db : Db) (oid uid : String) (oi : OrderItem)
    (db2 : Db) (orderId : String) (li : OrderItem)
    (hnone : ∀ sm ∈ db.storedMappings,
      sm.squareItemVariationId ≠ oi.catalog_object_id)
    (hnone2 : ∀ sm ∈ db2.storedMappings,
      ¬(sm.squareItemVariationId = li.catalog_object_id ∧ fnSyncEnabled sm = true)) :
    clientProcessOrderItem (getProductMappings db) oid uid db oi =
      (db, none, false) ∧
    fnProcessLineItem db2.storedMappings orderId db2 li = (db2, none, false) := by
  constructor
  · rw [clientProcessOrderItem, clientFindMapping_none db oi hnone]
  · rw [fnProcessLineItem, fnFindMapping_none db2.storedMappings li hnone2]

/-- Witness for the amended claim C6: an unmatched line is a no-op for the
client service, and a line matching only a stored-disabled mapping is a
no-op for the cloud function. -/
theorem claim_C6_unmapped_noop_witness :
    clientProcessOrderItem (getProductMappings dbC7) "o1" "u1" dbC7 lineNope =
      (dbC7, none, false) ∧
    fnProcessLineItem dbC6.storedMappings "o1" dbC6 lineSQ1 =
      (dbC6, none, false) :=
  claim_C6_unmapped_noop dbC7 "o1" "u1" lineNope dbC6 "o1" lineSQ1
    (by decide) (by decide)

/-- Lines that match no mapping leave the store untouched and produce no
errors and no updates. -/
theorem clientProcessItems_noop (mappings : List ProductMapping)
    (oid uid : String) (db : Db) (lines : List OrderItem)
    (h : ∀ oi ∈ lines, clientFindMapping mappings oi = none) :
    clientProcessItems mappings oid uid db lines = (db, [], 0) := by
  induction lines with
  | nil => rfl
  | cons oi rest ih =>
    have h1 : clientProcessOrderItem mappings oid uid db oi = (db, none, false) := by
      rw [clientProcessOrderItem, h oi (List.mem_cons_self _ _)]
    simp only [clientProcessItems, h1,
      ih (fun x hx => h x (List.mem_cons_of_mem _ hx))]
    simp

/-- Counterexample to claim C8 as stated: with an entirely empty mapping
store, a sale whose lines trivially have no enabled mapping is reported as
failed with one error, not as successful. -/
theorem claim_C8_counterexample :
    (clientProcessSale dbC1 "o1" "u1" [lineSQ1]).1.success = false ∧
    (clientProcessSale dbC1 "o1" "u1" [lineSQ1]).1.errors =
      ["No product mappings configured"] ∧
    (clientProcessSale dbC1 "o1" "u1" [lineSQ1]).1.itemsUpdated = 0 := by
  decide

/-- Claim C8 as amended: a processed sale reports success = true iff its
errors list is empty; and when at least one mapping is configured, a sale
none of whose lines matches any stored mapping is reported successful with
itemsUpdated = 0 and no errors. When the mapping store is empty the call
instead fails with the single error string about missing mappings (see the
counterexample). -/
theorem claim_C8_success_iff_no_errors
    (db : Db) (oid uid : String) (lines : List OrderItem)
    (hne : db.storedMappings ≠ [])
    (hunmatched : ∀ oi ∈ lines, ∀ sm ∈ db.storedMappings,
      sm.squareItemVariationId ≠ oi.catalog_object_id) :
    (∀ (db0 : Db) (o u : String) (ls : List OrderItem),
      ((clientProcessSale db0 o u ls).1.success = true ↔
        (clientProcessSale db0 o u ls).1.errors = [])) ∧
    clientProcessSale db oid uid lines =
      ({ success := true, itemsProcessed := lines.length, itemsUpdated := 0,
         errors := [] }, db) := by
  constructor
  · intro db0 o u ls
    rw [clientProcessSale]
    by_cases hm : (getProductMappings db0).isEmpty = true
    · simp [hm]
    · rw [Bool.not_eq_true] at hm
      simp only [hm, Bool.false_eq_true, if_false]
      cases hcp : clientProcessItems (getProductMappings db0) o u db0 ls with
      | mk db1 rest =>
        cases rest with
        | mk errors upd =>
          simp only []
          cases errors <;> simp
  · have hm : (getProductMappings db).isEmpty = false := by
      rw [getProductMappings]
      cases hdm : db.storedMappings with
      | nil => exact absurd hdm hne
      | cons a l => simp
    rw [clientProcessSale]
    simp only [hm, Bool.false_eq_true, if_false]
    rw [clientProcessItems_noop (getProductMappings db) oid uid db lines
      (fun oi hoi => clientFindMapping_none db oi (hunmatched oi hoi))]
    rfl

/-- Witness for the amended claim C8: a sale with one unmatched line
against a store holding one mapping. -/
theorem claim_C8_success_iff_no_errors_witness :
    (∀ (db0 : Db) (o u : String) (ls : List OrderItem),
      ((clientProcessSale db0 o u ls).1.success = true ↔
        (clientProcessSale db0 o u ls).1.errors = [])) ∧
    clientProcessSale dbC7 "o1" "u1" [lineNope] =
      ({ success := true, itemsProcessed := [lineNope].length,
         itemsUpdated := 0, errors := [] }, dbC7) :=
  claim_C8_success_iff_no_errors dbC7 "o1" "u1" [lineNope]
    (by decide) (by decide)

/-! ### Preservation lemmas: the consumption engine never touches the
webhook log collection or the config document. -/

theorem fnProcessIngredient_logsKey (oid pname : String) (soldQty : Nat)
    (db : Db) (ing : ProductIngredient) :
    (fnProcessIngredient oid pname soldQty db ing).webhookLogs = db.webhookLogs ∧
    (fnProcessIngredient oid pname soldQty db ing).configKey = db.configKey := by
  rw [fnProcessIngredient]
  split
  · exact ⟨rfl, rfl⟩
  · cases findItem db ing.inventoryItemId with
    | none => exact ⟨rfl, rfl⟩
    | some item => exact ⟨rfl, rfl⟩

theorem foldl_fnProcessIngredient_logsKey (oid pname : String) (soldQty : Nat)
    (l : List ProductIngredient) (db : Db) :
    (l.foldl (fnProcessIngredient oid pname soldQty) db).webhookLogs =
      db.webhookLogs ∧
    (l.foldl (fnProcessIngredient oid pname soldQty) db).configKey =
      db.configKey := by
  induction l generalizing db with
  | nil => exact ⟨rfl, rfl⟩
  | cons ing rest ih =>
    rw [List.foldl_cons]
    refine ⟨?_, ?_⟩
    · rw [(ih (fnProcessIngredient oid pname soldQty db ing)).1,
        (fnProcessIngredient_logsKey oid pname soldQty db ing).1]
    · rw [(ih (fnProcessIngredient oid pname soldQty db ing)).2,
        (fnProcessIngredient_logsKey oid pname soldQty db ing).2]

theorem fnProcessLineItem_logsKey (mappings : List StoredMapping)
    (orderId : String) (db : Db) (li : OrderItem) :
    (fnProcessLineItem mappings orderId db li).1.webhookLogs = db.webhookLogs ∧
    (fnProcessLineItem mappings orderId db li).1.configKey = db.configKey := by
  cases hf : mappings.find? (fun m =>
      (m.squareItemVariationId == li.catalog_object_id) && fnSyncEnabled m) with
  | none => simp [fnProcessLineItem, hf]
  | some mapping =>
    cases hp : db.products.find? (fun p => p.id == mapping.productId) with
    | none => simp [fnProcessLineItem, hf, hp]
    | some product =>
      simp only [fnProcessLineItem, hf, hp]
      exact foldl_fnProcessIngredient_logsKey orderId mapping.productName
        (fnParseQty li.quantity) product.ingredients db

theorem fnProcessItems_logsKey (mappings : List StoredMapping)
    (orderId : String) (db : Db) (lines : List OrderItem) :
    (fnProcessItems mappings orderId db lines).1.webhookLogs = db.webhookLogs ∧
    (fnProcessItems mappings orderId db lines).1.configKey = db.configKey := by
  induction lines generalizing db with
  | nil => exact ⟨rfl, rfl⟩
  | cons li rest ih =>
    simp only [fnProcessItems]
    cases hli : fnProcessLineItem mappings orderId db li with
    | mk db1 er =>
      obtain ⟨e, upd⟩ := er
      cases hrest : fnProcessItems mappings orderId db1 rest with
      | mk db2 er2 =>
        obtain ⟨errs, updC⟩ := er2
        have h1 := fnProcessLineItem_logsKey mappings orderId db li
        rw [hli] at h1
        have h2 := ih db1
        rw [hrest] at h2
        dsimp only at h1 h2 ⊢
        exact ⟨h2.1.trans h1.1, h2.2.trans h1.2⟩

theorem foldl_setMappingLastSynced_logsKey (now : Nat)
    (l : List StoredMapping) (db : Db) :
    (l.foldl (fun d m => setMappingLastSynced d m.id now) db).webhookLogs =
      db.webhookLogs ∧
    (l.foldl (fun d m => setMappingLastSynced d m.id now) db).configKey =
      db.configKey := by
  induction l generalizing db with
  | nil => exact ⟨rfl, rfl⟩
  | cons m rest ih =>
    rw [List.foldl_cons]
    exact ⟨(ih _).1, (ih _).2⟩

theorem processWebhookEvent_logsKey (e : SquareEvent) (now : Nat) (db : Db) :
    (processWebhookEvent e now db).2.webhookLogs = db.webhookLogs ∧
    (processWebhookEvent e now db).2.configKey = db.configKey := by
  rw [processWebhookEvent]
  split
  · exact ⟨rfl, rfl⟩
  · dsimp only
    split
    · exact ⟨rfl, rfl⟩
    · split
      · exact ⟨rfl, rfl⟩
      · cases hfp : fnProcessItems db.storedMappings e.order.id db
            e.order.line_items with
        | mk db1 er =>
          obtain ⟨errors, upd⟩ := er
          have h1 := fnProcessItems_logsKey db.storedMappings e.order.id db
            e.order.line_items
          rw [hfp] at h1
          dsimp only at h1 ⊢
          have h2 := foldl_setMappingLastSynced_logsKey now
            (db.storedMappings.filter fun m => e.order.line_items.any fun li =>
              li.catalog_object_id == m.squareItemVariationId) db1
          exact ⟨h2.1.trans h1.1, h2.2.trans h1.2⟩

/-- The signature gate only looks at the stored key and the request. -/
theorem sigGate_congr (verify : String → String → String → Bool)
    (db1 db2 : Db) (req : WebhookRequest)
    (h : db1.configKey = db2.configKey) :
    sigGate verify db1 req = sigGate verify db2 req := by
  rw [sigGate, sigGate, h]

/-- When the method is POST and the signature gate passes, squareWebhook
proceeds to the dedup check. -/
theorem squareWebhook_eq_main (verify : String → String → String → Bool)
    (now : Nat) (db : Db) (req : WebhookRequest)
    (hpost : req.method = "POST") (hgate : sigGate verify db req = true) :
    squareWebhook verify now db req = squareWebhookMain now db req := by
  rw [squareWebhook]
  rcases hck : db.configKey with _ | key <;>
    rcases hsig : req.signature with _ | sig <;>
    rw [sigGate, hck, hsig] at hgate <;>
    dsimp only at hgate <;>
    simp [hpost, hck, hsig, hgate]

/-- A request whose event id is already logged is short-circuited. -/
theorem squareWebhookMain_dup (now : Nat) (db : Db) (req : WebhookRequest)
    (h : db.webhookLogs.any (fun l => l.eventId == req.event.event_id) = true) :
    squareWebhookMain now db req = (db, ⟨200, "OK - Already processed"⟩) := by
  rw [squareWebhookMain, if_pos h]

/-- Claim C3: delivering the identical webhook event twice in sequence
(method POST, signature gate passing, event id not yet logged) yields
exactly one WebhookLog entry for that event id, and the second delivery is
answered 200 "OK - Already processed" without changing the store at all —
hence without re-invoking the consumption engine — regardless of whether
the first processing succeeded or failed. -/
theorem claim_C3_webhook_idempotent
    (verify : String → String → String → Bool) (now now2 : Nat)
    (db : Db) (req : WebhookRequest)
    (hpost : req.method = "POST")
    (hgate : sigGate verify db req = true)
    (h0 : db.webhookLogs.countP (fun l => l.eventId == req.event.event_id) = 0) :
    (squareWebhook verify now db req).1.webhookLogs.countP
        (fun l => l.eventId == req.event.event_id) = 1 ∧
    squareWebhook verify now2 (squareWebhook verify now db req).1 req =
      ((squareWebhook verify now db req).1, ⟨200, "OK - Already processed"⟩) := by
  have h0' := List.countP_eq_zero.mp h0
  have hany : db.webhookLogs.any (fun l => l.eventId == req.event.event_id) = false := by
    rw [← Bool.not_eq_true, List.any_eq_true]
    rintro ⟨x, hx, hpx⟩
    exact h0' x hx hpx
  rw [squareWebhook_eq_main verify now db req hpost hgate]
  rw [squareWebhookMain]
  rw [hany]
  simp only [Bool.false_eq_true, if_false]
  have hkey := (processWebhookEvent_logsKey req.event now db).2
  have hlogs := (processWebhookEvent_logsKey req.event now db).1
  cases hpe : processWebhookEvent req.event now db with
  | mk success db1 =>
    rw [hpe] at hkey hlogs
    dsimp only at hkey hlogs ⊢
    have main : ∀ (s : Bool) (msg : Option String),
        (logWebhookEvent db1 req.event s msg).webhookLogs.countP
          (fun l => l.eventId == req.event.event_id) = 1 ∧
        squareWebhook verify now2 (logWebhookEvent db1 req.event s msg) req =
          (logWebhookEvent db1 req.event s msg,
            ⟨200, "OK - Already processed"⟩) := by
      intro s msg
      have hcount : (logWebhookEvent db1 req.event s msg).webhookLogs.countP
          (fun l => l.eventId == req.event.event_id) = 1 := by
        rw [logWebhookEvent]
        dsimp only
        rw [List.countP_append, hlogs, h0]
        simp [List.countP_cons]
      refine ⟨hcount, ?_⟩
      have hgate1 : sigGate verify (logWebhookEvent db1 req.event s msg) req = true := by
        rw [sigGate_congr verify _ db req (by rw [logWebhookEvent]; exact hkey)]
        exact hgate
      rw [squareWebhook_eq_main verify now2 _ req hpost hgate1]
      apply squareWebhookMain_dup
      rw [logWebhookEvent]
      dsimp only
      rw [List.any_eq_true]
      refine ⟨_, List.mem_append_right _ (List.mem_singleton_self _), ?_⟩
      exact beq_self_eq_true _
    cases success
    · exact main false (some "Processing failed")
    · exact main true none

/-- Witness for claim C3 at a concrete store and request. -/
theorem claim_C3_webhook_idempotent_witness :
    (squareWebhook (fun _ _ _ => true) 1 dbC7 reqFix).1.webhookLogs.countP
        (fun l => l.eventId == reqFix.event.event_id) = 1 ∧
    squareWebhook (fun _ _ _ => true) 2
        (squareWebhook (fun _ _ _ => true) 1 dbC7 reqFix).1 reqFix =
      ((squareWebhook (fun _ _ _ => true) 1 dbC7 reqFix).1,
        ⟨200, "OK - Already processed"⟩) :=
  claim_C3_webhook_idempotent (fun _ _ _ => true) 1 2 dbC7 reqFix
    (by decide) (by decide) (by decide)

/-! ### Client-side preservation and composition lemmas -/

theorem clientUPS_prodMaps (db : Db) (itemId : String) (q : ℚ)
    (t : MovementType) (r : String) (nts : Option String) (uid : String) :
    ∀ db1, clientUpdatePhysicalStock db itemId q t r nts uid = some db1 →
      db1.products = db.products ∧ db1.storedMappings = db.storedMappings := by
  intro db1 h
  cases hfind : findItem db itemId with
  | none => rw [clientUpdatePhysicalStock, hfind] at h; exact absurd h (by simp)
  | some item =>
    rw [clientUPS_eq db itemId q t r nts uid item hfind] at h
    cases h
    exact ⟨rfl, rfl⟩

theorem clientProcessIngredients_prodMaps (uid : String) (soldQty : Nat)
    (note : String) (db : Db) (ings : List ProductIngredient) :
    (clientProcessIngredients uid soldQty note db ings).1.products =
      db.products ∧
    (clientProcessIngredients uid soldQty note db ings).1.storedMappings =
      db.storedMappings := by
  induction ings generalizing db with
  | nil => exact ⟨rfl, rfl⟩
  | cons ing rest ih =>
    rw [clientProcessIngredients]
    cases hu : clientUpdatePhysicalStock db ing.inventoryItemId
        (ing.quantity * (soldQty : ℚ)) .OUT "Square sale consumption"
        (some note) uid with
    | none => exact ⟨rfl, rfl⟩
    | some db1 =>
      have h1 := clientUPS_prodMaps db ing.inventoryItemId _ .OUT _ _ uid db1 hu
      have h2 := ih db1
      exact ⟨h2.1.trans h1.1, h2.2.trans h1.2⟩

theorem clientProcessOrderItem_prodMaps (mappings : List ProductMapping)
    (oid uid : String) (db : Db) (oi : OrderItem) :
    (clientProcessOrderItem mappings oid uid db oi).1.products = db.products ∧
    (clientProcessOrderItem mappings oid uid db oi).1.storedMappings =
      db.storedMappings := by
  cases hfm : clientFindMapping mappings oi with
  | none => simp [clientProcessOrderItem, hfm]
  | some m =>
    cases hp : db.products.find? (fun p => p.id == m.productId) with
    | none => simp [clientProcessOrderItem, hfm, hp]
    | some product =>
      have h := clientProcessIngredients_prodMaps uid oi.quantity
        ("Order " ++ oid ++ ": " ++ jsNatToString oi.quantity ++ "x " ++ product.name)
        db product.ingredients
      cases hci : clientProcessIngredients uid oi.quantity
          ("Order " ++ oid ++ ": " ++ jsNatToString oi.quantity ++ "x "
            ++ product.name) db product.ingredients with
      | mk db1 e =>
        rw [hci] at h
        cases e with
        | none => simp only [clientProcessOrderItem, hfm, hp, hci]; exact h
        | some msg => simp only [clientProcessOrderItem, hfm, hp, hci]; exact h

theorem clientProcessItems_prodMaps (mappings : List ProductMapping)
    (oid uid : String) (db : Db) (lines : List OrderItem) :
    (clientProcessItems mappings oid uid db lines).1.products = db.products ∧
    (clientProcessItems mappings oid uid db lines).1.storedMappings =
      db.storedMappings := by
  induction lines generalizing db with
  | nil => exact ⟨rfl, rfl⟩
  | cons oi rest ih =>
    simp only [clientProcessItems]
    cases hoi : clientProcessOrderItem mappings oid uid db oi with
    | mk db1 er =>
      obtain ⟨e, upd⟩ := er
      cases hrest : clientProcessItems mappings oid uid db1 rest with
      | mk db2 er2 =>
        obtain ⟨errs, updC⟩ := er2
        have h1 := clientProcessOrderItem_prodMaps mappings oid uid db oi
        rw [hoi] at h1
        have h2 := ih db1
        rw [hrest] at h2
        dsimp only at h1 h2 ⊢
        exact ⟨h2.1.trans h1.1, h2.2.trans h1.2⟩

/-- Processing a concatenation of line lists runs the two parts in
sequence and concatenates the error lists and update counts. -/
theorem clientProcessItems_append (mappings : List ProductMapping)
    (oid uid : String) (db : Db) (l1 l2 : List OrderItem) :
    clientProcessItems mappings oid uid db (l1 ++ l2) =
      ((clientProcessItems mappings oid uid
          (clientProcessItems mappings oid uid db l1).1 l2).1,
        (clientProcessItems mappings oid uid db l1).2.1 ++
          (clientProcessItems mappings oid uid
            (clientProcessItems mappings oid uid db l1).1 l2).2.1,
        (clientProcessItems mappings oid uid db l1).2.2 +
          (clientProcessItems mappings oid uid
            (clientProcessItems mappings oid uid db l1).1 l2).2.2) := by
  induction l1 generalizing db with
  | nil => simp [clientProcessItems]
  | cons oi rest ih =>
    simp only [List.cons_append, clientProcessItems]
    cases hoi : clientProcessOrderItem mappings oid uid db oi with
    | mk db1 er =>
      obtain ⟨e, upd⟩ := er
      dsimp only
      rw [List.append_eq, ih db1]
      cases hrest : clientProcessItems mappings oid uid db1 rest with
      | mk db2 er2 =>
        obtain ⟨errs, updC⟩ := er2
        dsimp only
        rw [List.append_assoc, Nat.add_assoc]

/-- A line whose mapping resolves but whose product is missing records the
line error and leaves the store untouched. -/
theorem clientProcessOrderItem_badProduct (mappings : List ProductMapping)
    (oid uid : String) (db : Db) (oi : OrderItem) (m : ProductMapping)
    (hfm : clientFindMapping mappings oi = some m)
    (hprod : db.products.find? (fun p => p.id == m.productId) = none) :
    clientProcessOrderItem mappings oid uid db oi =
      (db, some ("Product not found for mapping: " ++ m.productName), false) := by
  simp only [clientProcessOrderItem, hfm, hprod]

theorem clientUPS_presence (db : Db) (itemId : String) (q : ℚ)
    (t : MovementType) (r : String) (nts : Option String) (uid : String)
    (db1 : Db) (h : clientUpdatePhysicalStock db itemId q t r nts uid = some db1)
    (j : String) : (findItem db1 j).isSome = (findItem db j).isSome := by
  cases hfind : findItem db itemId with
  | none => rw [clientUpdatePhysicalStock, hfind] at h; exact absurd h (by simp)
  | some item =>
    rw [clientUPS_eq db itemId q t r nts uid item hfind] at h
    cases h
    have : findItem { setItemPhysical db itemId
        (computeNewStock t item.currentPhysicalStock q) with
        stockMovements := db.stockMovements ++
          [clientMovementOf itemId item t q r nts uid] } j =
        findItem (setItemPhysical db itemId
          (computeNewStock t item.currentPhysicalStock q)) j := rfl
    rw [this, findItem_setItemPhysical]
    cases findItem db j <;> rfl

theorem clientUPS_isSome (db : Db) (itemId : String) (q : ℚ)
    (t : MovementType) (r : String) (nts : Option String) (uid : String)
    (h : (findItem db itemId).isSome = true) :
    (clientUpdatePhysicalStock db itemId q t r nts uid).isSome = true := by
  cases hfind : findItem db itemId with
  | none => rw [hfind] at h; exact absurd h (by simp)
  | some item => rw [clientUPS_eq db itemId q t r nts uid item hfind]; rfl

theorem clientProcessIngredients_presence (uid : String) (soldQty : Nat)
    (note : String) (db : Db) (ings : List ProductIngredient) (j : String) :
    (findItem (clientProcessIngredients uid soldQty note db ings).1 j).isSome =
      (findItem db j).isSome := by
  induction ings generalizing db with
  | nil => rfl
  | cons ing rest ih =>
    rw [clientProcessIngredients]
    cases hu : clientUpdatePhysicalStock db ing.inventoryItemId
        (ing.quantity * (soldQty : ℚ)) .OUT "Square sale consumption"
        (some note) uid with
    | none => rfl
    | some db1 =>
      rw [ih db1, clientUPS_presence db ing.inventoryItemId _ .OUT _ _ uid db1 hu j]

theorem clientProcessIngredients_noErr (uid : String) (soldQty : Nat)
    (note : String) (db : Db) (ings : List ProductIngredient)
    (h : ∀ ing ∈ ings, (findItem db ing.inventoryItemId).isSome = true) :
    (clientProcessIngredients uid soldQty note db ings).2 = none := by
  induction ings generalizing db with
  | nil => rfl
  | cons ing rest ih =>
    rw [clientProcessIngredients]
    cases hu : clientUpdatePhysicalStock db ing.inventoryItemId
        (ing.quantity * (soldQty : ℚ)) .OUT "Square sale consumption"
        (some note) uid with
    | none =>
      have := clientUPS_isSome db ing.inventoryItemId
        (ing.quantity * (soldQty : ℚ)) .OUT "Square sale consumption"
        (some note) uid (h ing (List.mem_cons_self _ _))
      rw [hu] at this
      exact absurd this (by simp)
    | some db1 =>
      exact ih db1 fun x hx => by
        rw [clientUPS_presence db ing.inventoryItemId _ .OUT _ _ uid db1 hu]
        exact h x (List.mem_cons_of_mem _ hx)

theorem clientProcessOrderItem_presence (mappings : List ProductMapping)
    (oid uid : String) (db : Db) (oi : OrderItem) (j : String) :
    (findItem (clientProcessOrderItem mappings oid uid db oi).1 j).isSome =
      (findItem db j).isSome := by
  cases hfm : clientFindMapping mappings oi with
  | none => simp [clientProcessOrderItem, hfm]
  | some m =>
    cases hp : db.products.find? (fun p => p.id == m.productId) with
    | none => simp [clientProcessOrderItem, hfm, hp]
    | some product =>
      have h := clientProcessIngredients_presence uid oi.quantity
        ("Order " ++ oid ++ ": " ++ jsNatToString oi.quantity ++ "x " ++ product.name)
        db product.ingredients j
      cases hci : clientProcessIngredients uid oi.quantity
          ("Order " ++ oid ++ ": " ++ jsNatToString oi.quantity ++ "x "
            ++ product.name) db product.ingredients with
      | mk db1 e =>
        rw [hci] at h
        cases e with
        | none => simp only [clientProcessOrderItem, hfm, hp, hci]; exact h
        | some msg => simp only [clientProcessOrderItem, hfm, hp, hci]; exact h

/-- A healthy line records no error. -/
theorem clientProcessOrderItem_ok (mappings : List ProductMapping)
    (oid uid : String) (db : Db) (oi : OrderItem)
    (h : lineOkClient mappings db oi = true) :
    (clientProcessOrderItem mappings oid uid db oi).2.1 = none := by
  cases hfm : clientFindMapping mappings oi with
  | none => simp [clientProcessOrderItem, hfm]
  | some m =>
    cases hp : db.products.find? (fun p => p.id == m.productId) with
    | none => simp only [lineOkClient, hfm, hp] at h; exact absurd h (by simp)
    | some product =>
      simp only [lineOkClient, hfm, hp, List.all_eq_true] at h
      have hci := clientProcessIngredients_noErr uid oi.quantity
        ("Order " ++ oid ++ ": " ++ jsNatToString oi.quantity ++ "x " ++ product.name)
        db product.ingredients (fun ing hi => by simpa using h ing hi)
      cases hrun : clientProcessIngredients uid oi.quantity
          ("Order " ++ oid ++ ": " ++ jsNatToString oi.quantity ++ "x "
            ++ product.name) db product.ingredients with
      | mk db1 e =>
        rw [hrun] at hci
        cases hci
        simp only [clientProcessOrderItem, hfm, hp, hrun]

/-- Healthiness of a line is preserved by processing other lines, since
processing never deletes products or inventory items. -/
theorem lineOkClient_congr (mappings : List ProductMapping) (db1 db : Db)
    (oi : OrderItem) (hprod : db1.products = db.products)
    (hpres : ∀ j, (findItem db1 j).isSome = (findItem db j).isSome) :
    lineOkClient mappings db1 oi = lineOkClient mappings db oi := by
  rw [lineOkClient, lineOkClient, hprod]
  cases hfm : clientFindMapping mappings oi with
  | none => rfl
  | some m =>
    dsimp only
    cases hp : db.products.find? (fun p => p.id == m.productId) with
    | none => rfl
    | some product =>
      dsimp only
      have : (fun ing : ProductIngredient =>
            (findItem db1 ing.inventoryItemId).isSome) =
          (fun ing => (findItem db ing.inventoryItemId).isSome) :=
        funext fun ing => hpres _
      rw [this]

/-- A sale whose every line is healthy records no errors. -/
theorem clientProcessItems_noErrors (mappings : List ProductMapping)
    (oid uid : String) (db : Db) (lines : List OrderItem)
    (h : ∀ oi ∈ lines, lineOkClient mappings db oi = true) :
    (clientProcessItems mappings oid uid db lines).2.1 = [] := by
  induction lines generalizing db with
  | nil => rfl
  | cons oi rest ih =>
    simp only [clientProcessItems]
    cases hoi : clientProcessOrderItem mappings oid uid db oi with
    | mk db1 er =>
      obtain ⟨e, upd⟩ := er
      have he := clientProcessOrderItem_ok mappings oid uid db oi
        (h oi (List.mem_cons_self _ _))
      rw [hoi] at he
      cases he
      cases hrest : clientProcessItems mappings oid uid db1 rest with
      | mk db2 er2 =>
        obtain ⟨errs, updC⟩ := er2
        have hr := ih db1 fun x hx => by
          have hprod := (clientProcessOrderItem_prodMaps mappings oid uid db oi).1
          rw [hoi] at hprod
          have hpres := clientProcessOrderItem_presence mappings oid uid db oi
          rw [lineOkClient_congr mappings db1 db x hprod
            (fun j => by have := hpres j; rw [hoi] at this; exact this)]
          exact h x (List.mem_cons_of_mem _ hx)
        rw [hrest] at hr
        dsimp only at hr ⊢
        rw [hr]
        rfl

/-- A non-empty mapping store reads as a non-empty mapping list. -/
theorem getProductMappings_isEmpty_false (db : Db)
    (hne : db.storedMappings ≠ []) :
    (getProductMappings db).isEmpty = false := by
  rw [getProductMappings]
  cases hdm : db.storedMappings with
  | nil => exact absurd hdm hne
  | cons a l => simp

/-- Claim C5: in a sale whose lines are pre ++ bad :: post where bad is
the one mapped line whose product no longer exists and the other lines
process cleanly, the result reports itemsProcessed equal to the total line
count, exactly one error (for the bad line), success = false, and the
final store equals the store produced by processing the sale without the
bad line — sibling lines are processed despite the failure. -/
theorem claim_C5_partial_failure
    (db : Db) (oid uid : String) (pre post : List OrderItem) (bad : OrderItem)
    (m : ProductMapping)
    (hne : db.storedMappings ≠ [])
    (hfm : clientFindMapping (getProductMappings db) bad = some m)
    (hprod : db.products.find? (fun p => p.id == m.productId) = none)
    (hclean : (clientProcessSale db oid uid (pre ++ post)).1.errors = []) :
    (clientProcessSale db oid uid (pre ++ bad :: post)).1.itemsProcessed =
      pre.length + 1 + post.length ∧
    (clientProcessSale db oid uid (pre ++ bad :: post)).1.errors =
      ["Product not found for mapping: " ++ m.productName] ∧
    (clientProcessSale db oid uid (pre ++ bad :: post)).1.success = false ∧
    (clientProcessSale db oid uid (pre ++ bad :: post)).2 =
      (clientProcessSale db oid uid (pre ++ post)).2 := by
  have hm := getProductMappings_isEmpty_false db hne
  have happ1 := clientProcessItems_append (getProductMappings db) oid uid db
    pre (bad :: post)
  have happ2 := clientProcessItems_append (getProductMappings db) oid uid db
    pre post
  have hAprod := (clientProcessItems_prodMaps (getProductMappings db) oid uid
    db pre).1
  cases hA : clientProcessItems (getProductMappings db) oid uid db pre with
  | mk dbA erA =>
    obtain ⟨errsA, cntA⟩ := erA
    rw [hA] at happ1 happ2 hAprod
    dsimp only at happ1 happ2 hAprod
    have hbad := clientProcessOrderItem_badProduct (getProductMappings db)
      oid uid dbA bad m hfm (by rw [hAprod]; exact hprod)
    cases hP : clientProcessItems (getProductMappings db) oid uid dbA post with
    | mk dbP erP =>
      obtain ⟨errsP, cntP⟩ := erP
      rw [hP] at happ2
      dsimp only at happ2
      have hcons : clientProcessItems (getProductMappings db) oid uid dbA
          (bad :: post) =
          (dbP, ("Product not found for mapping: " ++ m.productName) :: errsP,
            0 + cntP) := by
        simp only [clientProcessItems, hbad, hP]
        simp
      rw [hcons] at happ1
      dsimp only at happ1
      simp only [clientProcessSale, hm, Bool.false_eq_true, if_false] at hclean ⊢
      rw [happ2] at hclean
      dsimp only at hclean
      obtain ⟨hA0, hP0⟩ := List.append_eq_nil.mp hclean
      subst hA0
      subst hP0
      rw [happ1, happ2]
      dsimp only
      refine ⟨?_, rfl, rfl, rfl⟩
      simp [List.length_append]
      omega

/-- Witness for claim C5: a three-line sale where the middle line maps to
the deleted product pGone and the outer lines consume itemA. -/
theorem claim_C5_partial_failure_witness :
    (clientProcessSale dbC5 "o1" "u1" ([lineSQ1] ++ lineBad :: [lineSQ3])).1.itemsProcessed =
      [lineSQ1].length + 1 + [lineSQ3].length ∧
    (clientProcessSale dbC5 "o1" "u1" ([lineSQ1] ++ lineBad :: [lineSQ3])).1.errors =
      ["Product not found for mapping: " ++ (readMapping smBad).productName] ∧
    (clientProcessSale dbC5 "o1" "u1" ([lineSQ1] ++ lineBad :: [lineSQ3])).1.success = false ∧
    (clientProcessSale dbC5 "o1" "u1" ([lineSQ1] ++ lineBad :: [lineSQ3])).2 =
      (clientProcessSale dbC5 "o1" "u1" ([lineSQ1] ++ [lineSQ3])).2 :=
  claim_C5_partial_failure dbC5 "o1" "u1" [lineSQ1] [lineSQ3] lineBad
    (readMapping smBad) (by decide) (by decide) (by decide)
    (by
      have hm : (getProductMappings dbC5).isEmpty = false := by decide
      simp only [clientProcessSale, hm, Bool.false_eq_true, if_false]
      cases hit : clientProcessItems (getProductMappings dbC5) "o1" "u1" dbC5
          ([lineSQ1] ++ [lineSQ3]) with
      | mk db1 er =>
        obtain ⟨errs, cnt⟩ := er
        have hok := clientProcessItems_noErrors (getProductMappings dbC5)
          "o1" "u1" dbC5 ([lineSQ1] ++ [lineSQ3]) (by decide)
        rw [hit] at hok
        dsimp only at hok ⊢
        exact hok)

theorem jsAbs_neg (a : ℚ) (h : 0 ≤ a) : jsAbs (-a) = a := by
  rw [jsAbs]
  rcases eq_or_lt_of_le h with h' | h'
  · rw [if_neg (by rw [← h']; norm_num), ← h']
    norm_num
  · rw [if_pos (by linarith)]
    ring

/-- The effect of a successful updatePhysicalStockAsync run on lookups and
on the movement log. -/
theorem clientUPS_findItem (db : Db) (itemId : String) (q : ℚ)
    (t : MovementType) (r : String) (nts : Option String) (uid : String)
    (item : InventoryItem) (db1 : Db)
    (hfind : findItem db itemId = some item)
    (h : clientUpdatePhysicalStock db itemId q t r nts uid = some db1) :
    findItem db1 itemId = some { item with
      currentPhysicalStock := computeNewStock t item.currentPhysicalStock q } ∧
    (∀ j, j ≠ itemId → findItem db1 j = findItem db j) ∧
    db1.stockMovements = db.stockMovements ++
      [clientMovementOf itemId item t q r nts uid] := by
  rw [clientUPS_eq db itemId q t r nts uid item hfind] at h
  cases h
  refine ⟨?_, ?_, rfl⟩
  · have : findItem { setItemPhysical db itemId
        (computeNewStock t item.currentPhysicalStock q) with
        stockMovements := db.stockMovements ++
          [clientMovementOf itemId item t q r nts uid] } itemId =
        findItem (setItemPhysical db itemId
          (computeNewStock t item.currentPhysicalStock q)) itemId := rfl
    rw [this, findItem_setItemPhysical_self db itemId _ item hfind]
  · intro j hj
    have : findItem { setItemPhysical db itemId
        (computeNewStock t item.currentPhysicalStock q) with
        stockMovements := db.stockMovements ++
          [clientMovementOf itemId item t q r nts uid] } j =
        findItem (setItemPhysical db itemId
          (computeNewStock t item.currentPhysicalStock q)) j := rfl
    rw [this, findItem_setItemPhysical_ne db itemId j _ hj]

/-- Full characterization of the ingredient loop when every ingredient
resolves to a distinct existing item with sufficient stock. -/
theorem clientProcessIngredients_run (uid : String) (n : Nat) (note : String)
    (db : Db) (ings : List ProductIngredient)
    (hnodup : (ings.map fun ing => ing.inventoryItemId).Nodup)
    (hready : ∀ ing ∈ ings, ∃ item,
      findItem db ing.inventoryItemId = some item ∧ 0 ≤ ing.quantity ∧
      ing.quantity * (n : ℚ) ≤ item.currentPhysicalStock) :
    (clientProcessIngredients uid n note db ings).2 = none ∧
    (clientProcessIngredients uid n note db ings).1.stockMovements =
      db.stockMovements ++ ings.map (ingMovementOf db uid note n) ∧
    (∀ ing ∈ ings,
      findItem (clientProcessIngredients uid n note db ings).1
          ing.inventoryItemId =
        (findItem db ing.inventoryItemId).map fun x =>
          { x with currentPhysicalStock :=
              x.currentPhysicalStock - ing.quantity * (n : ℚ) }) ∧
    (∀ j, (∀ ing ∈ ings, ing.inventoryItemId ≠ j) →
      findItem (clientProcessIngredients uid n note db ings).1 j =
        findItem db j) := by
  induction ings generalizing db with
  | nil => exact ⟨rfl, by simp [clientProcessIngredients], by simp, fun j _ => rfl⟩
  | cons ing rest ih =>
    obtain ⟨item, hfind, h0q, hle⟩ := hready ing (List.mem_cons_self _ _)
    have hgq0 : 0 ≤ ing.quantity * (n : ℚ) :=
      mul_nonneg h0q (Nat.cast_nonneg n)
    have hstock : computeNewStock .OUT item.currentPhysicalStock
        (ing.quantity * (n : ℚ)) =
        item.currentPhysicalStock - ing.quantity * (n : ℚ) := by
      rw [computeNewStock, jsMax, if_pos (sub_nonneg.mpr hle)]
    have hmvEq : clientMovementOf ing.inventoryItemId item .OUT
        (ing.quantity * (n : ℚ)) "Square sale consumption" (some note) uid =
        ingMovementOf db uid note n ing := by
      rw [ingMovementOf, hfind, clientMovementOf, hstock]
      have : item.currentPhysicalStock - ing.quantity * (n : ℚ) -
          item.currentPhysicalStock = -(ing.quantity * (n : ℚ)) := by ring
      rw [this, jsAbs_neg _ hgq0]
    have hninrest : ing.inventoryItemId ∉ rest.map fun x => x.inventoryItemId :=
      (List.nodup_cons.mp hnodup).1
    have hnodup1 : (rest.map fun x => x.inventoryItemId).Nodup :=
      (List.nodup_cons.mp hnodup).2
    have hne : ∀ x ∈ rest, x.inventoryItemId ≠ ing.inventoryItemId := by
      intro x hx heq
      exact hninrest (heq ▸ List.mem_map_of_mem _ hx)
    cases hu : clientUpdatePhysicalStock db ing.inventoryItemId
        (ing.quantity * (n : ℚ)) .OUT "Square sale consumption" (some note)
        uid with
    | none =>
      rw [clientUPS_eq db ing.inventoryItemId _ .OUT _ _ uid item hfind] at hu
      exact absurd hu (by simp)
    | some db1 =>
      obtain ⟨hfd1, hfdne, hmv1⟩ := clientUPS_findItem db ing.inventoryItemId
        _ .OUT _ _ uid item db1 hfind hu
      have hready1 : ∀ x ∈ rest, ∃ it,
          findItem db1 x.inventoryItemId = some it ∧ 0 ≤ x.quantity ∧
          x.quantity * (n : ℚ) ≤ it.currentPhysicalStock := by
        intro x hx
        obtain ⟨it, hf, h0, hl⟩ := hready x (List.mem_cons_of_mem _ hx)
        exact ⟨it, by rw [hfdne _ (hne x hx)]; exact hf, h0, hl⟩
      obtain ⟨ih1, ih2, ih3, ih4⟩ := ih db1 hnodup1 hready1
      have hrun : clientProcessIngredients uid n note db (ing :: rest) =
          clientProcessIngredients uid n note db1 rest := by
        rw [clientProcessIngredients, hu]
      rw [hrun]
      have hmapeq : rest.map (ingMovementOf db1 uid note n) =
          rest.map (ingMovementOf db uid note n) := by
        apply List.map_congr_left
        intro x hx
        rw [ingMovementOf, ingMovementOf, hfdne _ (hne x hx)]
      refine ⟨ih1, ?_, ?_, ?_⟩
      · rw [ih2, hmv1, hmapeq, hmvEq, List.map_cons, List.append_assoc]
        rfl
      · intro x hx
        rcases List.mem_cons.mp hx with rfl | hx'
        · rw [ih4 x.inventoryItemId (fun y hy => hne y hy), hfd1, hfind,
            Option.map_some', hstock]
        · rw [ih3 x hx', hfdne _ (hne x hx')]
      · intro j hj
        rw [ih4 j (fun y hy => hj y (List.mem_cons_of_mem _ hy)),
          hfdne _ (fun h => hj ing (List.mem_cons_self _ _) h.symm)]

/-- Counterexample to claim C4 as stated: the ledger movement written for
a sale-consumption decrement carries reason "Square sale consumption", not
"sale consumption". -/
theorem claim_C4_counterexample :
    ((clientProcessSale dbC4 "o1" "u1" [lineSQ1]).2.stockMovements.map
      fun m => m.reason) = ["Square sale consumption"] ∧
    "Square sale consumption" ≠ "sale consumption" := by
  refine ⟨?_, by decide⟩
  norm_num [clientProcessSale, clientProcessItems, clientProcessOrderItem,
    clientFindMapping, clientProcessIngredients, clientUpdatePhysicalStock,
    findItem, setItemPhysical, getProductMappings, readMapping, jsOrBool,
    dbC4, smFix, prodLatte, itemA, lineSQ1, computeNewStock,
    jsMax, jsAbs, clientMovementOf, List.find?]

/-- Claim C4 as amended: for a sale line of quantity n resolving to an
enabled mapping and an existing product, processing applies, for each
ProductIngredient of quantity g whose inventory item exists and holds at
least g * n (items pairwise distinct), exactly one OUT ledger movement of
magnitude g * n against that item, with reason "Square sale consumption",
and decrements that item by g * n; the line itself records no error. -/
theorem claim_C4_sale_consumption
    (mappings : List ProductMapping) (oid uid : String) (db : Db)
    (oi : OrderItem) (m : ProductMapping) (product : Product)
    (hfm : clientFindMapping mappings oi = some m)
    (hp : db.products.find? (fun p => p.id == m.productId) = some product)
    (hnodup : (product.ingredients.map fun ing => ing.inventoryItemId).Nodup)
    (hready : ∀ ing ∈ product.ingredients, ∃ item,
      findItem db ing.inventoryItemId = some item ∧ 0 ≤ ing.quantity ∧
      ing.quantity * (oi.quantity : ℚ) ≤ item.currentPhysicalStock) :
    (clientProcessOrderItem mappings oid uid db oi).2.1 = none ∧
    (clientProcessOrderItem mappings oid uid db oi).2.2 = true ∧
    (clientProcessOrderItem mappings oid uid db oi).1.stockMovements =
      db.stockMovements ++ product.ingredients.map
        (ingMovementOf db uid
          ("Order " ++ oid ++ ": " ++ jsNatToString oi.quantity ++ "x "
            ++ product.name) oi.quantity) ∧
    (∀ ing ∈ product.ingredients,
      (ingMovementOf db uid
          ("Order " ++ oid ++ ": " ++ jsNatToString oi.quantity ++ "x "
            ++ product.name) oi.quantity ing).reason =
        "Square sale consumption" ∧
      (ingMovementOf db uid
          ("Order " ++ oid ++ ": " ++ jsNatToString oi.quantity ++ "x "
            ++ product.name) oi.quantity ing).quantity =
        ing.quantity * (oi.quantity : ℚ) ∧
      (ingMovementOf db uid
          ("Order " ++ oid ++ ": " ++ jsNatToString oi.quantity ++ "x "
            ++ product.name) oi.quantity ing).mvType = .OUT) ∧
    (∀ ing ∈ product.ingredients,
      (findItem (clientProcessOrderItem mappings oid uid db oi).1
          ing.inventoryItemId).map (fun x => x.currentPhysicalStock) =
        (findItem db ing.inventoryItemId).map fun x =>
          x.currentPhysicalStock - ing.quantity * (oi.quantity : ℚ)) := by
  obtain ⟨hrun1, hrun2, hrun3, _⟩ := clientProcessIngredients_run uid
    oi.quantity
    ("Order " ++ oid ++ ": " ++ jsNatToString oi.quantity ++ "x "
      ++ product.name) db product.ingredients hnodup hready
  cases hci : clientProcessIngredients uid oi.quantity
      ("Order " ++ oid ++ ": " ++ jsNatToString oi.quantity ++ "x "
        ++ product.name) db product.ingredients with
  | mk db1 e =>
    rw [hci] at hrun1 hrun2 hrun3
    dsimp only at hrun1 hrun2 hrun3
    cases hrun1
    have hoi : clientProcessOrderItem mappings oid uid db oi =
        (db1, none, true) := by
      simp only [clientProcessOrderItem, hfm, hp, hci]
    rw [hoi]
    refine ⟨rfl, rfl, hrun2, ?_, ?_⟩
    · intro ing hing
      obtain ⟨item, hfind, h0q, hle⟩ := hready ing hing
      exact ⟨by rw [ingMovementOf, hfind], by rw [ingMovementOf, hfind],
        by rw [ingMovementOf, hfind]⟩
    · intro ing hing
      rw [hrun3 ing hing]
      cases findItem db ing.inventoryItemId <;> rfl

/-- Witness for the amended claim C4: a one-line sale of one Latte
consuming 2 units of itemA out of 5. -/
theorem claim_C4_sale_consumption_witness :
    (clientProcessOrderItem (getProductMappings dbC4) "o1" "u1" dbC4
        lineSQ1).2.1 = none ∧
    (clientProcessOrderItem (getProductMappings dbC4) "o1" "u1" dbC4
        lineSQ1).2.2 = true ∧
    (clientProcessOrderItem (getProductMappings dbC4) "o1" "u1" dbC4
        lineSQ1).1.stockMovements =
      dbC4.stockMovements ++ prodLatte.ingredients.map
        (ingMovementOf dbC4 "u1"
          ("Order " ++ "o1" ++ ": " ++ jsNatToString lineSQ1.quantity ++ "x "
            ++ prodLatte.name) lineSQ1.quantity) ∧
    (∀ ing ∈ prodLatte.ingredients,
      (ingMovementOf dbC4 "u1"
          ("Order " ++ "o1" ++ ": " ++ jsNatToString lineSQ1.quantity ++ "x "
            ++ prodLatte.name) lineSQ1.quantity ing).reason =
        "Square sale consumption" ∧
      (ingMovementOf dbC4 "u1"
          ("Order " ++ "o1" ++ ": " ++ jsNatToString lineSQ1.quantity ++ "x "
            ++ prodLatte.name) lineSQ1.quantity ing).quantity =
        ing.quantity * (lineSQ1.quantity : ℚ) ∧
      (ingMovementOf dbC4 "u1"
          ("Order " ++ "o1" ++ ": " ++ jsNatToString lineSQ1.quantity ++ "x "
            ++ prodLatte.name) lineSQ1.quantity ing).mvType = .OUT) ∧
    (∀ ing ∈ prodLatte.ingredients,
      (findItem (clientProcessOrderItem (getProductMappings dbC4) "o1" "u1"
          dbC4 lineSQ1).1 ing.inventoryItemId).map
          (fun x => x.currentPhysicalStock) =
        (findItem dbC4 ing.inventoryItemId).map fun x =>
          x.currentPhysicalStock - ing.quantity * (lineSQ1.quantity : ℚ)) :=
  claim_C4_sale_consumption (getProductMappings dbC4) "o1" "u1" dbC4 lineSQ1
    (readMapping smFix) prodLatte (by decide) (by decide) (by decide)
    (by
      intro ing hing
      have : ing = (⟨"itemA", 2⟩ : ProductIngredient) := by
        simpa [prodLatte] using hing
      subst this
      exact ⟨itemA, by decide, by norm_num, by norm_num [itemA, lineSQ1]⟩)

/-! ### Suggestion cascade lemmas -/

theorem dedupFirst_sublist (l : List Suggestion)
    (seen : List (String × String)) : (dedupFirst l seen).Sublist l := by
  induction l generalizing seen with
  | nil => exact List.Sublist.refl _
  | cons s rest ih =>
    simp only [dedupFirst]
    split
    · exact (ih seen).cons s
    · exact (ih _).cons₂ s

theorem dedupFirst_keys (l : List Suggestion)
    (seen : List (String × String)) :
    (∀ s ∈ dedupFirst l seen,
      (s.lobbyTraceProduct.id, s.squareItem.id) ∉ seen) ∧
    (dedupFirst l seen).Pairwise (fun a b =>
      ¬(a.lobbyTraceProduct.id = b.lobbyTraceProduct.id ∧
        a.squareItem.id = b.squareItem.id)) := by
  induction l generalizing seen with
  | nil => exact ⟨fun s hs => absurd hs (List.not_mem_nil s), List.Pairwise.nil⟩
  | cons s rest ih =>
    simp only [dedupFirst]
    split
    · exact ih seen
    · rename_i hnot
      obtain ⟨ihmem, ihpw⟩ :=
        ih ((s.lobbyTraceProduct.id, s.squareItem.id) :: seen)
      refine ⟨?_, ?_⟩
      · intro x hx
        rcases List.mem_cons.mp hx with rfl | hx'
        · exact hnot
        · exact fun hmem =>
            ihmem x hx' (List.mem_cons_of_mem _ hmem)
      · refine List.Pairwise.cons ?_ ihpw
        intro x hx hcontra
        apply ihmem x hx
        have hk : (x.lobbyTraceProduct.id, x.squareItem.id) =
            (s.lobbyTraceProduct.id, s.squareItem.id) := by
          rw [hcontra.1, hcontra.2]
        rw [hk]
        exact List.mem_cons_self _ _

/-- The source cascade agrees with the spec-level cascade in the corrected
rule order. -/
theorem pairSuggestion_eq_spec (p : Product) (sq : SquareCatalogObject) :
    pairSuggestion p sq = specSuggestionCascade p sq := by
  by_cases h1 : sq.objType = "ITEM_VARIATION"
  · rw [pairSuggestion, specSuggestionCascade]
    simp only [h1, bne_self_eq_false, Bool.false_eq_true, if_false, if_pos,
      ruleFullName, ruleNameOnly, ruleSku, ruleToken, ruleOverlap]
    split_ifs <;>
      simp_all [bne_iff_ne, beq_iff_eq, firstSome, Option.map_some',
        Option.map_none']
  · rw [pairSuggestion, specSuggestionCascade]
    have hb : (sq.objType != "ITEM_VARIATION") = true := by
      simp [bne_iff_ne, h1]
    simp [hb, h1]

/-- Counterexample to claim C10 as stated: for a product that matches a
catalog variation both by token and by exact name, the cascade evaluates
the name rule before the token rule, yielding confidence 0.90 with reason
"Exact name match" instead of the claimed first-priority token match at
0.95 with reason "token match". -/
theorem claim_C10_counterexample :
    suggestProductMappings [pC10] [sqC10] =
      [⟨pC10, sqC10, 0.90, "Exact name match"⟩] ∧
    (0.90 : ℚ) ≠ 0.95 ∧ "Exact name match" ≠ "token match" :=
  ⟨rfl, by norm_num, by decide⟩

/-- Claim C10 as amended: the cascade evaluates, per (product, catalog
variation) pair and first match wins, 1) normalized full-name equality
(0.95), 2) name-only equality (0.90), 3) SKU equality when both non-empty
(0.90), 4) token/catalog-id equality (0.95, reason "Token ID match"),
5) at-least-70-percent word overlap of the shorter token list (0.75); the
returned list is sorted descending by confidence and holds at most one
entry per (product id, catalog object id) pair, keeping the first
occurrence of the stable sort. -/
theorem claim_C10_suggestion_cascade :
    (∀ (p : Product) (sq : SquareCatalogObject),
      pairSuggestion p sq = specSuggestionCascade p sq) ∧
    (∀ (ps : List Product) (its : List SquareCatalogObject),
      (suggestProductMappings ps its).Pairwise confGe) ∧
    (∀ (ps : List Product) (its : List SquareCatalogObject),
      (suggestProductMappings ps its).Pairwise fun a b =>
        ¬(a.lobbyTraceProduct.id = b.lobbyTraceProduct.id ∧
          a.squareItem.id = b.squareItem.id)) := by
  refine ⟨pairSuggestion_eq_spec, ?_, ?_⟩
  · intro ps its
    rw [suggestProductMappings]
    exact List.Pairwise.sublist (dedupFirst_sublist _ _)
      (List.sorted_insertionSort confGe _)
  · intro ps its
    rw [suggestProductMappings]
    exact (dedupFirst_keys _ _).2

end LobbyTrace
